import Mathlib

/-!
# local_agent: a reverse-tunnel agent (`main.go`)

A shallow embedding of the agent-side protocol code of `main.go`:

* the `Envelope` data model, `CloneHeaders` and the JSON codec
  (`Envelope.Marshal`, `Envelope.Unmarshal`);
* `joinPath` and `handleRequest` (the request forwarder);
* `loop` (the connection session).

Byte slices are lists of natural numbers below 256, `int` is `Int`, and
`map[string][]string` is an association list with unique keys whose entry
order stands for the order in which `range` visits the map. Slices and maps
are values: a nil slice or map and an empty one are the same value. A Go panic
is an explicit outcome.

Go strings are byte strings. `handleRequest` and `loop` only compare, join and
pass on the strings of an envelope, and there they are modelled as Lean
strings (`Envelope`). The codec is where the bytes of a string matter: it is
modelled on `GoEnvelope`, the same struct with its strings as byte strings
(`GoString`), which need not be valid UTF-8.

The parts of the Go standard library and of gorilla/websocket that the code
calls are either modelled here (string helpers, `validMethod`, UTF-8, base64,
the JSON text that `encoding/json` writes and reads for the struct tags of
`Envelope`, the read state of a `websocket.Conn`) or taken as parameters
(`Lib`, `Iter`). `loop` is given by its control flow over what the calls on
the connection return, one `Iter` per iteration; `loopOnConn` runs it on a
connection whose reads behave as those of gorilla/websocket.
-/

namespace LocalAgent

/-! ## `strings` helpers -/

/-- `strings.HasPrefix`. -/
def HasPrefix (s pre : String) : Bool := pre.data.isPrefixOf s.data

/-- `strings.HasSuffix`. -/
def HasSuffix (s suffix : String) : Bool := suffix.data.isSuffixOf s.data

/-- `strings.TrimPrefix`: `s` without the leading `pre`, or `s` itself when it
does not start with `pre`. -/
def TrimPrefix (s pre : String) : String :=
  if HasPrefix s pre then ⟨s.data.drop pre.data.length⟩ else s

/-- `strings.TrimSuffix`: `s` without the trailing `suffix`, or `s` itself when
it does not end with `suffix`. -/
def TrimSuffix (s suffix : String) : String :=
  if HasSuffix s suffix then ⟨s.data.take (s.data.length - suffix.data.length)⟩ else s

/-- Whether `sub` occurs in `s` as a contiguous run, on character lists. -/
def containsChars (sub : List Char) : List Char → Bool
  | [] => sub.isEmpty
  | c :: cs => sub.isPrefixOf (c :: cs) || containsChars sub cs

/-- `strings.Contains`. -/
def Contains (s substr : String) : Bool := containsChars substr.data s.data

/-! ## `joinPath` -/

/-- `joinPath` of `main.go`. -/
def joinPath (a b : String) : String :=
  let as := TrimSuffix a "/"
  let bs := "/" ++ TrimPrefix b "/"
  as ++ bs

/-! ## Data model -/

/-- `MsgType` of `main.go`. -/
abbrev MsgType := String

def TypeRequest : MsgType := "request"
def TypeResponse : MsgType := "response"
def TypePing : MsgType := "ping"
def TypePong : MsgType := "pong"

/-- Go `map[string][]string` (also `http.Header`): unique keys, each with a
sequence of values. The order of `entries` is the order in which a `range`
over the map visits it. -/
abbrev Header := AList (fun _ : String => List String)

/-- `Envelope` of `main.go`. The field `Type` is spelled `Typ`, `Type` being
reserved. `Body` holds bytes; `Status` is a Go `int`. -/
structure Envelope where
  Typ : MsgType := ""
  AppID : String := ""
  ReqID : String := ""
  Method : String := ""
  Path : String := ""
  Headers : Header := ∅
  Status : Int := 0
  Body : List Nat := []

/-- Two header maps hold the same keys with the same values. -/
def Header.Same (h₁ h₂ : Header) : Prop := ∀ k, h₁.lookup k = h₂.lookup k

/-- A Go string as the codec sees it: a sequence of bytes, which need not be
the UTF-8 encoding of a text. -/
abbrev GoString := List Nat

/-- Go `map[string][]string` with its strings as byte strings. -/
abbrev GoHeader := AList (fun _ : GoString => List GoString)

/-- `Envelope` of `main.go` with its strings as Go holds them, byte strings.
`Envelope` above is the same struct with its strings read as text, which is
all that `handleRequest` and `loop` look at; the codec is where the bytes of a
string matter. -/
structure GoEnvelope where
  Typ : GoString := []
  AppID : GoString := []
  ReqID : GoString := []
  Method : GoString := []
  Path : GoString := []
  Headers : GoHeader := ∅
  Status : Int := 0
  Body : List Nat := []

/-- The values the numeric fields can hold in Go: `Status` fits a 64-bit `int`
and every element of `Body` is a byte. -/
def GoEnvelope.Valid (e : GoEnvelope) : Prop :=
  (-(2 : Int) ^ 63 ≤ e.Status ∧ e.Status < (2 : Int) ^ 63) ∧ ∀ b ∈ e.Body, b < 256

instance (e : GoEnvelope) : Decidable e.Valid := by
  unfold GoEnvelope.Valid; exact inferInstance

/-- Two envelopes are equal in every field, the headers compared as maps. -/
def GoEnvelope.Same (a b : GoEnvelope) : Prop :=
  a.Typ = b.Typ ∧ a.AppID = b.AppID ∧ a.ReqID = b.ReqID ∧ a.Method = b.Method ∧
  a.Path = b.Path ∧ (∀ k, a.Headers.lookup k = b.Headers.lookup k) ∧
  a.Status = b.Status ∧ a.Body = b.Body

/-- The bytes of a Go string constant: its UTF-8 encoding. -/
def stringBytes (s : String) : List Nat :=
  (s.data.flatMap String.utf8EncodeChar).map UInt8.toNat

/-- `make([]string, n)`: `n` empty strings. -/
def makeStrings (n : Nat) : List String := List.replicate n ""

/-- Go `copy(dst, src)`: the first `min (len dst) (len src)` elements of `dst`
are overwritten with those of `src`. -/
def copy (dst src : List String) : List String :=
  src.take dst.length ++ dst.drop src.length

/-- The loop body of `CloneHeaders`, run over the entries of the source map in
the order `es`. -/
def cloneEntries (es : List (Sigma fun _ : String => List String)) : Header :=
  es.foldl (fun out kv =>
    let vv := copy (makeStrings kv.2.length) kv.2
    out.insert kv.1 vv) ∅

/-- `CloneHeaders` of `main.go`. -/
def CloneHeaders (h : Header) : Header := cloneEntries h.entries

/-! ## The HTTP side -/

/-- A Go panic or a normal return. -/
inductive Outcome (α : Type) where
  | returns (a : α)
  | panics (msg : String)

/-- The message of the runtime panic raised when a nil pointer is used. -/
def nilDereference : String :=
  "runtime error: invalid memory address or nil pointer dereference"

/-- `url.URL`: the string fields of a parsed URL. -/
structure URL where
  Scheme : String := ""
  Opaque : String := ""
  Host : String := ""
  Path : String := ""
  RawPath : String := ""
  RawQuery : String := ""
  Fragment : String := ""

/-- `http.Request` as `http.NewRequest` builds it. -/
structure Request where
  Method : String
  URL : URL
  Header : Header
  Body : List Nat

/-- `http.Response` as `handleRequest` reads it: status code, headers and the
bytes that `io.ReadAll(httpResp.Body)` yields. -/
structure Response where
  StatusCode : Int
  Header : Header
  Body : List Nat

/-- Pure functions of the Go standard library that the forwarder calls and
that are not modelled further. `urlParse` is `url.Parse`, with `none` when it
returns an error (its `*URL` result is then nil); `urlString` is
`(*URL).String`; `canonicalHeaderKey` is `textproto.CanonicalMIMEHeaderKey`,
applied by `http.Header.Add`. -/
structure Lib where
  urlParse : String → Option URL
  urlString : URL → String
  canonicalHeaderKey : String → String

/-- The characters of an HTTP token (`httpguts.IsTokenRune`). -/
def isTokenRune (c : Char) : Bool :=
  c.isAlphanum || "!#$%&'*+-.^_`|~".data.contains c

/-- `validMethod` of `net/http`: a non-empty token. -/
def validMethod (method : String) : Bool :=
  decide (0 < method.data.length) && method.data.all isTokenRune

/-- `http.NewRequest(method, url, body)`: `none` when it returns an error (the
`*Request` result is then nil). An empty method stands for GET; the method has
to be a valid token and the URL has to parse. -/
def NewRequest (lib : Lib) (method url : String) (body : List Nat) : Option Request :=
  let method := if method = "" then "GET" else method
  if validMethod method then
    match lib.urlParse url with
    | none => none
    | some u => some { Method := method, URL := u, Header := ∅, Body := body }
  else none

/-- `http.Header.Add`: append `value` to the values of the canonical `key`. -/
def Header.Add (lib : Lib) (h : Header) (key value : String) : Header :=
  let key := lib.canonicalHeaderKey key
  h.insert key ((h.lookup key).getD [] ++ [value])

/-- The header-copying loop of `handleRequest`: every value of every header of
the envelope is added to the outgoing request. -/
def addHeaders (lib : Lib) (src : Header) (h : Header) : Header :=
  src.entries.foldl (fun h kv => kv.2.foldl (fun h vv => Header.Add lib h kv.1 vv) h) h

/-- Something the agent does that is visible from outside. -/
inductive Effect where
  /-- `log.Printf(msg)`. -/
  | log (msg : String)
  /-- `c.SetReadDeadline(t)`, `t` in nanoseconds. -/
  | setReadDeadline (t : Nat)
  /-- `client.Do(req)`: the local service is called. -/
  | httpDo (req : Request)
  /-- `c.WriteJSON(env)` and the error it returned, if any. -/
  | writeJSON (env : Envelope) (err : Option String)

/-- `http.StatusBadGateway`. -/
def StatusBadGateway : Int := 502

/-- `handleRequest` of `main.go`. `Do` is the behaviour of `client.Do` (with the
10 second timeout) for this call: an error description, or the response. The
result is the list of effects and either the returned envelope or a panic.
The errors of `url.Parse` and `http.NewRequest` are discarded by the code, and
the nil pointer they leave is dereferenced: by `u.Path = ...` for the URL, by
`httpReq.Header.Add` or inside `client.Do` for the request. -/
def handleRequest (lib : Lib) (Do : Request → Except String Response)
    (base : String) (req : Envelope) : List Effect × Outcome Envelope :=
  match lib.urlParse base with
  | none => ([], .panics nilDereference)
  | some u =>
    let u := { u with Path := joinPath u.Path req.Path }
    match NewRequest lib req.Method (lib.urlString u) req.Body with
    | none => ([], .panics nilDereference)
    | some httpReq =>
      let httpReq := { httpReq with Header := addHeaders lib req.Headers httpReq.Header }
      match Do httpReq with
      | .error err =>
        ([.httpDo httpReq], .returns {
          Typ := TypeResponse, ReqID := req.ReqID, Status := StatusBadGateway,
          Headers := AList.singleton "X-Agent-Error" [err],
          Body := stringBytes "agent request error" })
      | .ok httpResp =>
        let b := httpResp.Body
        ([.httpDo httpReq], .returns {
          Typ := TypeResponse,
          ReqID := req.ReqID,
          Status := httpResp.StatusCode,
          Headers := CloneHeaders httpResp.Header,
          Body := b })

/-! ## The connection session -/

/-- `time.Second`, in nanoseconds. -/
def Second : Nat := 1000000000

/-- What the environment does during one iteration of `loop`: the result of
`c.ReadJSON(&env)` into a fresh envelope (an error description or the decoded
frame), the value of `time.Now()` in nanoseconds, the behaviour of the local
service, and the error, if any, that `c.WriteJSON` returns when it is called
in this iteration. The iterations of a run are arbitrary: nothing is assumed
about how the connection's results follow one another. -/
structure Iter where
  read : Except String Envelope
  now : Nat := 0
  Do : Request → Except String Response := fun _ => .error "connection refused"
  write : Option String := none

/-- How a run of `loop` over finitely many iterations ends. -/
inductive Exit where
  /-- `loop` returned this error to its caller. -/
  | returned (err : String)
  /-- A panic left `loop`. -/
  | panicked (msg : String)
  /-- All given iterations are done and `loop` goes on reading. -/
  | reading

/-- `loop` of `main.go`, run over the iterations `its` on one connection: the
effects in order, and how the run ends. -/
def loop (lib : Lib) (base : String) : List Iter → List Effect × Exit
  | [] => ([], .reading)
  | it :: rest =>
    match it.read with
    | .error err =>
      if Contains err "timeout" || Contains err "deadline" then
        let r := loop lib base rest
        (.setReadDeadline (it.now + 60 * Second) :: r.1, r.2)
      else ([], .returned err)
    | .ok env =>
      if env.Typ = TypePing then
        let r := loop lib base rest
        (.log "[agent] received ping" :: .writeJSON { Typ := TypePong } it.write :: r.1, r.2)
      else if env.Typ ≠ TypeRequest then
        loop lib base rest
      else
        match handleRequest lib it.Do base env with
        | (fx, .panics msg) => (fx, .panicked msg)
        | (fx, .returns resp) =>
          match it.write with
          | some err => (fx ++ [.writeJSON resp (some err)], .returned err)
          | none =>
            let r := loop lib base rest
            (fx ++ .writeJSON resp none :: r.1, r.2)

/-! ## The reads of the websocket connection -/

/-- The read state of a `websocket.Conn` of gorilla/websocket: the error of a
failed read (`readErr`), which stays once it is set, and the number of reads
that ended in an error (`readErrCount`). -/
structure Conn where
  readErr : Option String := none
  readErrCount : Nat := 0

/-- What happens when a connection that still reads is asked for its next
message: a data message arrives, with the result of decoding it into a fresh
envelope; or no data message starts, the read of the next frame failing in
`NextReader` (the read deadline passes, the peer resets or closes); or a data
message starts and the read of the rest of it fails. -/
inductive Arrival where
  | message (decoded : Except String Envelope)
  | failure (err : String)
  | broken (err : String)

/-- The message of the panic that the library raises on the 1000th read of a
connection whose read has failed. -/
def repeatedRead : String := "repeated read on failed websocket connection"

/-- The end of `NextReader` when the read has failed with `err`: the failure
is counted (`c.readErrCount++`), the 1000th one panics, the others return
`err`. -/
def Conn.failedRead (c : Conn) (err : String) : Conn × Outcome (Except String Envelope) :=
  let c := { c with readErrCount := c.readErrCount + 1 }
  if 1000 ≤ c.readErrCount then (c, .panics repeatedRead) else (c, .returns (.error err))

/-- `c.ReadJSON(&env)` of gorilla/websocket. A connection whose read has failed
before does not read again: `NextReader` skips its loop and ends with the
error it kept. Otherwise the next frame is read: a message is decoded; a
failure in `NextReader` is kept in `readErr` and counted; a failure inside the
message is kept in `readErr` by the message reader and returned by the
decoder. -/
def Conn.ReadJSON (c : Conn) (a : Arrival) : Conn × Outcome (Except String Envelope) :=
  match c.readErr with
  | some err => c.failedRead err
  | none =>
    match a with
    | .message decoded => (c, .returns decoded)
    | .failure err => Conn.failedRead { c with readErr := some err } err
    | .broken err => ({ c with readErr := some err }, .returns (.error err))

/-- What the environment does during one iteration of `loop` on a connection:
as `Iter`, with what reaches the connection in place of the result of
`ReadJSON`. -/
structure Step where
  arrival : Arrival
  now : Nat := 0
  Do : Request → Except String Response := fun _ => .error "connection refused"
  write : Option String := none

/-- The iterations that `loop` goes through on the connection `c` while
`ReadJSON` returns, and whether the read after them panics. -/
def connIters : Conn → List Step → List Iter × Bool
  | _, [] => ([], false)
  | c, s :: rest =>
    match c.ReadJSON s.arrival with
    | (_, .panics _) => ([], true)
    | (c1, .returns r) =>
      ({ read := r, now := s.now, Do := s.Do, write := s.write } :: (connIters c1 rest).1,
       (connIters c1 rest).2)

/-- `loop` of `main.go` on a gorilla/websocket connection in the state `c`: the
run of `loop` over the iterations in which `ReadJSON` returns; a run that
comes to the read that panics ends with that panic. -/
def loopOnConn (lib : Lib) (base : String) (c : Conn) (steps : List Step) : List Effect × Exit :=
  match loop lib base (connIters c steps).1 with
  | (fx, .reading) => (fx, if (connIters c steps).2 then .panicked repeatedRead else .reading)
  | r => r

/-! ## The JSON codec -/

/-- A JSON document. A number written as an integer literal is `num`; one
with a fraction or an exponent is `real` and keeps its text. -/
inductive JSON where
  | null
  | bool (b : Bool)
  | num (n : Int)
  | real (lit : String)
  | str (s : String)
  | arr (xs : List JSON)
  | obj (members : List (String × JSON))

/-! ### UTF-8 -/

/-- The UTF-8 encoding of a code point. -/
def utf8EncodeRune (n : Nat) : List Nat :=
  if n < 0x80 then [n]
  else if n < 0x800 then [0xC0 + n / 64, 0x80 + n % 64]
  else if n < 0x10000 then [0xE0 + n / 4096, 0x80 + n / 64 % 64, 0x80 + n % 64]
  else [0xF0 + n / 262144, 0x80 + n / 4096 % 64, 0x80 + n / 64 % 64, 0x80 + n % 64]

/-- The UTF-8 encoding of a text. -/
def utf8Encode (cs : List Char) : List Nat := cs.flatMap fun c => utf8EncodeRune c.toNat

/-- A continuation byte. -/
def isCont (b : Nat) : Bool := decide (0x80 ≤ b) && decide (b < 0xC0)

/-- Go `utf8.DecodeRune` on the bytes `b0 :: rest`: the code point encoded at
the head and the bytes after it, or `none` and `rest` when the head is not a
well-formed encoding (one byte is consumed, the rune is `utf8.RuneError`). -/
def decodeRune (b0 : Nat) (rest : List Nat) : Option Nat × List Nat :=
  if b0 < 0x80 then (some b0, rest)
  else
    match rest with
    | [] => (none, rest)
    | b1 :: r1 =>
      if isCont b1 = false then (none, rest)
      else if 0xC2 ≤ b0 ∧ b0 < 0xE0 then (some ((b0 - 0xC0) * 64 + (b1 - 0x80)), r1)
      else
        match r1 with
        | [] => (none, rest)
        | b2 :: r2 =>
          if isCont b2 = false then (none, rest)
          else if 0xE0 ≤ b0 ∧ b0 < 0xF0 then
            if 0x800 ≤ (b0 - 0xE0) * 4096 + (b1 - 0x80) * 64 + (b2 - 0x80) ∧
                ¬ (0xD800 ≤ (b0 - 0xE0) * 4096 + (b1 - 0x80) * 64 + (b2 - 0x80) ∧
                   (b0 - 0xE0) * 4096 + (b1 - 0x80) * 64 + (b2 - 0x80) < 0xE000) then
              (some ((b0 - 0xE0) * 4096 + (b1 - 0x80) * 64 + (b2 - 0x80)), r2)
            else (none, rest)
          else
            match r2 with
            | [] => (none, rest)
            | b3 :: r3 =>
              if isCont b3 = false then (none, rest)
              else if 0xF0 ≤ b0 ∧ b0 < 0xF8 then
                if 0x10000 ≤ (b0 - 0xF0) * 262144 + (b1 - 0x80) * 4096 + (b2 - 0x80) * 64
                      + (b3 - 0x80) ∧
                    (b0 - 0xF0) * 262144 + (b1 - 0x80) * 4096 + (b2 - 0x80) * 64
                      + (b3 - 0x80) < 0x110000 then
                  (some ((b0 - 0xF0) * 262144 + (b1 - 0x80) * 4096 + (b2 - 0x80) * 64
                    + (b3 - 0x80)), r3)
                else (none, rest)
              else (none, rest)

/-- The runes of a byte string, read one after the other. -/
def runesAux : Nat → List Nat → List (Option Char)
  | 0, _ => []
  | _ + 1, [] => []
  | fuel + 1, b0 :: rest =>
    (decodeRune b0 rest).1.map Char.ofNat :: runesAux fuel (decodeRune b0 rest).2

/-- The runes of a Go string as a `range` over it reads them; `none` stands
for a byte that is not part of a well-formed encoding. -/
def runes (s : List Nat) : List (Option Char) := runesAux s.length s

/-- The replacement character `U+FFFD` (`utf8.RuneError`). -/
def replacement : Char := Char.ofNat 0xFFFD

/-- The text of a byte string as Go reads it: every byte that is not part of a
well-formed encoding becomes `U+FFFD`. -/
def utf8Decode (bs : List Nat) : List Char := (runes bs).map fun r => r.getD replacement

/-- The text that a Go string is read back as from the JSON document it was
written to: its runes, every invalid byte replaced by `U+FFFD`. -/
def textOf (s : GoString) : String := ⟨utf8Decode s⟩

/-- The Go string of a text: its UTF-8 encoding. -/
def bytesOf (s : String) : GoString := utf8Encode s.data

/-- The byte string is valid UTF-8 (`utf8.Valid`): it is the encoding of the
text it is read as, no byte being replaced. -/
def ValidUTF8 (s : GoString) : Prop := bytesOf (textOf s) = s

instance (s : GoString) : Decidable (ValidUTF8 s) := by
  unfold ValidUTF8; exact inferInstance

/-- Every string of the envelope is valid UTF-8: the five string fields, the
header names and the header values. -/
def GoEnvelope.ValidUTF8 (e : GoEnvelope) : Prop :=
  LocalAgent.ValidUTF8 e.Typ ∧ LocalAgent.ValidUTF8 e.AppID ∧ LocalAgent.ValidUTF8 e.ReqID ∧
  LocalAgent.ValidUTF8 e.Method ∧ LocalAgent.ValidUTF8 e.Path ∧
  ∀ kv ∈ e.Headers.entries, LocalAgent.ValidUTF8 kv.1 ∧ ∀ v ∈ kv.2, LocalAgent.ValidUTF8 v

instance (e : GoEnvelope) : Decidable e.ValidUTF8 := by
  unfold GoEnvelope.ValidUTF8; exact inferInstance

/-! ### JSON text -/

/-- The lower-case hexadecimal digit of a value below 16. -/
def hexDigit (n : Nat) : Char := "0123456789abcdef".data.getD n '0'

/-- The value of a hexadecimal digit, in either case. -/
def hexValue (c : Char) : Option Nat :=
  if '0' ≤ c ∧ c ≤ '9' then some (c.toNat - 48)
  else if 'a' ≤ c ∧ c ≤ 'f' then some (c.toNat - 87)
  else if 'A' ≤ c ∧ c ≤ 'F' then some (c.toNat - 55)
  else none

/-- How `encoding/json` writes one character of a string (with the HTML
escaping that `json.Marshal` applies): a short escape for the quote, the
backslash and five control characters, `\u00XX` for the other control
characters and for `<`, `>` and `&`, `\u2028` and `\u2029` for the
two line separators, and the character itself otherwise. -/
def escapeChar (c : Char) : List Char :=
  if c = '"' then ['\\', '"']
  else if c = '\\' then ['\\', '\\']
  else if c = Char.ofNat 8 then ['\\', 'b']
  else if c = Char.ofNat 12 then ['\\', 'f']
  else if c = '\n' then ['\\', 'n']
  else if c = '\r' then ['\\', 'r']
  else if c = '\t' then ['\\', 't']
  else if c.toNat < 32 ∨ c = '<' ∨ c = '>' ∨ c = '&' then
    ['\\', 'u', '0', '0', hexDigit (c.toNat / 16), hexDigit (c.toNat % 16)]
  else if c.toNat = 0x2028 ∨ c.toNat = 0x2029 then
    ['\\', 'u', '2', '0', '2', hexDigit (c.toNat % 16)]
  else [c]

/-- How `encoding/json` writes one rune of a Go string: a byte that is not
part of a well-formed encoding is written as the six characters `\ufffd`,
the escape of the replacement character. -/
def escapeRune : Option Char → List Char
  | some c => escapeChar c
  | none => ['\\', 'u', 'f', 'f', 'f', 'd']

/-- A Go string as `encoding/json` writes it (`appendString`). -/
def printString (s : GoString) : List Char :=
  '"' :: (runes s).flatMap escapeRune ++ ['"']

/-- A natural number in decimal. -/
def printNat (n : Nat) : List Char :=
  if n = 0 then ['0'] else (Nat.digits 10 n).reverse.map fun d => Char.ofNat (48 + d)

/-- An integer in decimal, as `strconv.AppendInt` writes it. -/
def printInt (n : Int) : List Char :=
  if n < 0 then '-' :: printNat n.natAbs else printNat n.natAbs

/-- The document that `json.Marshal` writes for Go values of the kinds that
occur in an `Envelope`: integers, strings, slices and maps or structs. -/
inductive Doc where
  | num (n : Int)
  | str (s : GoString)
  | arr (xs : List Doc)
  | obj (members : List (GoString × Doc))

mutual
/-- The text of a document as `json.Marshal` writes it: no white space, the
elements of an array and the members of an object separated by commas. -/
def printDoc : Doc → List Char
  | .num n => printInt n
  | .str s => printString s
  | .arr xs => '[' :: printElems xs ++ [']']
  | .obj ms => '{' :: printMembers ms ++ ['}']
/-- The elements of an array, separated by commas. -/
def printElems : List Doc → List Char
  | [] => []
  | [x] => printDoc x
  | x :: y :: xs => printDoc x ++ ',' :: printElems (y :: xs)
/-- The members of an object, separated by commas. -/
def printMembers : List (GoString × Doc) → List Char
  | [] => []
  | [(k, v)] => printString k ++ ':' :: printDoc v
  | (k, v) :: m :: ms => printString k ++ ':' :: printDoc v ++ ',' :: printMembers (m :: ms)
end

mutual
/-- The JSON document that the text of a `Doc` denotes: every string is the
text of the Go string. -/
def Doc.json : Doc → JSON
  | .num n => .num n
  | .str s => .str (textOf s)
  | .arr xs => .arr (jsonElems xs)
  | .obj ms => .obj (jsonMembers ms)
/-- The elements, each as JSON. -/
def jsonElems : List Doc → List JSON
  | [] => []
  | x :: xs => x.json :: jsonElems xs
/-- The members, each as JSON. -/
def jsonMembers : List (GoString × Doc) → List (String × JSON)
  | [] => []
  | (k, v) :: ms => (textOf k, v.json) :: jsonMembers ms
end

/-- JSON white space. -/
def isWs (c : Char) : Bool := c = ' ' || c = '\t' || c = '\n' || c = '\r'

/-- The text without its leading white space. -/
def skipWs : List Char → List Char
  | [] => []
  | c :: cs => if isWs c then skipWs cs else c :: cs

/-- Four hexadecimal digits as a number. -/
def parseHex4 (cs : List Char) : Option (Nat × List Char) :=
  match cs with
  | a :: b :: c :: d :: rest =>
    match hexValue a, hexValue b, hexValue c, hexValue d with
    | some x, some y, some z, some w => some (((x * 16 + y) * 16 + z) * 16 + w, rest)
    | _, _, _, _ => none
  | _ => none

/-- A `\uXXXX` escape at the head of the text, as a number. -/
def parseU4 (cs : List Char) : Option (Nat × List Char) :=
  match cs with
  | '\\' :: 'u' :: rest => parseHex4 rest
  | _ => none

/-- The character of a simple escape. -/
def simpleEscape (e : Char) : Option Char :=
  if e = '"' then some '"'
  else if e = '\\' then some '\\'
  else if e = '/' then some '/'
  else if e = 'b' then some (Char.ofNat 8)
  else if e = 'f' then some (Char.ofNat 12)
  else if e = 'n' then some '\n'
  else if e = 'r' then some '\r'
  else if e = 't' then some '\t'
  else none

/-- The characters of a string literal after its opening quote, up to and
without the closing quote, and the text after it. -/
def parseChars : Nat → List Char → Option (List Char × List Char)
  | 0, _ => none
  | _ + 1, [] => none
  | fuel + 1, c :: rest =>
    if c = '"' then some ([], rest)
    else if c = '\\' then
      match rest with
      | [] => none
      | e :: rest1 =>
        if e = 'u' then
          match parseHex4 rest1 with
          | none => none
          | some (u, rest2) =>
            if 0xD800 ≤ u ∧ u < 0xE000 then
              match parseU4 rest2 with
              | some (l, rest3) =>
                if u < 0xDC00 ∧ 0xDC00 ≤ l ∧ l < 0xE000 then
                  (parseChars fuel rest3).map fun r =>
                    (Char.ofNat (0x10000 + (u - 0xD800) * 0x400 + (l - 0xDC00)) :: r.1, r.2)
                else (parseChars fuel rest2).map fun r => (Char.ofNat 0xFFFD :: r.1, r.2)
              | none => (parseChars fuel rest2).map fun r => (Char.ofNat 0xFFFD :: r.1, r.2)
            else (parseChars fuel rest2).map fun r => (Char.ofNat u :: r.1, r.2)
        else
          match simpleEscape e with
          | none => none
          | some x => (parseChars fuel rest1).map fun r => (x :: r.1, r.2)
    else if c.toNat < 32 then none
    else (parseChars fuel rest).map fun r => (c :: r.1, r.2)

/-- A string literal after its opening quote. -/
def parseString (cs : List Char) : Option (String × List Char) :=
  (parseChars (cs.length + 1) cs).map fun r => (⟨r.1⟩, r.2)

/-- The number written by a run of decimal digits. -/
def digitsValue (ds : List Char) : Nat := ds.foldl (fun acc d => acc * 10 + (d.toNat - 48)) 0

/-- The fraction part of a number, if there is one: `none` when it is
malformed, else the text after it. -/
def parseFraction (cs : List Char) : Option (List Char) :=
  match cs with
  | [] => some cs
  | c :: r =>
    if c = '.' then
      if (r.span Char.isDigit).1 = [] then none else some (r.span Char.isDigit).2
    else some cs

/-- The exponent part of a number, if there is one: `none` when it is
malformed, else the text after it. -/
def parseExponent (cs : List Char) : Option (List Char) :=
  match cs with
  | [] => some cs
  | e :: rest =>
    if e = 'e' ∨ e = 'E' then
      let rest1 := match rest with
        | [] => rest
        | s :: r => if s = '+' ∨ s = '-' then r else rest
      if (rest1.span Char.isDigit).1 = [] then none else some (rest1.span Char.isDigit).2
    else some cs

/-- A number literal without its sign, `cs`, inside the literal `all`: an
integer literal gives `num`, one with a fraction or an exponent gives `real`
with its text. -/
def parseUnsigned (neg : Bool) (all cs : List Char) : Option (JSON × List Char) :=
  if (cs.span Char.isDigit).1 = [] then none
  else if 1 < (cs.span Char.isDigit).1.length ∧ (cs.span Char.isDigit).1.head? = some '0' then none
  else
    match parseFraction (cs.span Char.isDigit).2 with
    | none => none
    | some r1 =>
      match parseExponent r1 with
      | none => none
      | some r2 =>
        if r2.length = (cs.span Char.isDigit).2.length then
          some (.num (if neg then -(digitsValue (cs.span Char.isDigit).1 : Int)
                      else digitsValue (cs.span Char.isDigit).1), r2)
        else some (.real ⟨all.take (all.length - r2.length)⟩, r2)

/-- A number literal. -/
def parseNumber (cs : List Char) : Option (JSON × List Char) :=
  match cs with
  | [] => none
  | c :: rest => if c = '-' then parseUnsigned true cs rest else parseUnsigned false cs cs

mutual
/-- One JSON value at the head of the text, after white space, and the text
after it; `none` when there is none. The first argument bounds the nesting
and the number of elements. -/
def parseValue : Nat → List Char → Option (JSON × List Char)
  | 0, _ => none
  | fuel + 1, cs =>
    match skipWs cs with
    | [] => none
    | c :: rest =>
      if c = '"' then (parseString rest).map fun r => (.str r.1, r.2)
      else if c = '[' then
        match skipWs rest with
        | [] => none
        | d :: rest1 =>
          if d = ']' then some (.arr [], rest1)
          else (parseElems fuel (d :: rest1)).map fun r => (.arr r.1, r.2)
      else if c = '{' then
        match skipWs rest with
        | [] => none
        | d :: rest1 =>
          if d = '}' then some (.obj [], rest1)
          else (parseMembers fuel (d :: rest1)).map fun r => (.obj r.1, r.2)
      else if (c :: rest).take 4 = "null".data then some (.null, rest.drop 3)
      else if (c :: rest).take 4 = "true".data then some (.bool true, rest.drop 3)
      else if (c :: rest).take 5 = "false".data then some (.bool false, rest.drop 4)
      else parseNumber (c :: rest)
/-- The elements of an array after its opening bracket, up to and with the
closing bracket. -/
def parseElems : Nat → List Char → Option (List JSON × List Char)
  | 0, _ => none
  | fuel + 1, cs =>
    match parseValue fuel cs with
    | none => none
    | some (x, rest) =>
      match skipWs rest with
      | [] => none
      | d :: rest1 =>
        if d = ',' then (parseElems fuel rest1).map fun r => (x :: r.1, r.2)
        else if d = ']' then some ([x], rest1)
        else none
/-- The members of an object after its opening brace, up to and with the
closing brace. -/
def parseMembers : Nat → List Char → Option (List (String × JSON) × List Char)
  | 0, _ => none
  | fuel + 1, cs =>
    match skipWs cs with
    | [] => none
    | q :: rest =>
      if q = '"' then
        match parseString rest with
        | none => none
        | some (k, rest1) =>
          match skipWs rest1 with
          | [] => none
          | colon :: rest2 =>
            if colon = ':' then
              match parseValue fuel rest2 with
              | none => none
              | some (v, rest3) =>
                match skipWs rest3 with
                | [] => none
                | d :: rest4 =>
                  if d = ',' then (parseMembers fuel rest4).map fun r => ((k, v) :: r.1, r.2)
                  else if d = '}' then some ([(k, v)], rest4)
                  else none
            else none
      else none
end

/-- A JSON text: one value with white space around it and nothing else. -/
def parseJSON (text : List Char) : Option JSON :=
  match parseValue (text.length + 1) text with
  | none => none
  | some (j, rest) => if skipWs rest = [] then some j else none


/-- The characters a value written by `printDoc` can start with. -/
def startsValue (c : Char) : Bool :=
  c = 'n' || c = 't' || c = 'f' || c = '"' || c = '[' || c = '{' || c = '-' || c.isDigit

/-- The text after a value inside a document written by `printDoc`: the end,
or a comma, or a closing bracket or brace. -/
def closes : List Char → Bool
  | [] => true
  | c :: _ => c = ',' || c = ']' || c = '}'

/-! ### The fields of `Envelope` -/

/-- The alphabet of `base64.StdEncoding`. -/
def b64Alphabet : List Char :=
  "ABCDEFGHIJKLMNOPQRSTUVWXYZabcdefghijklmnopqrstuvwxyz0123456789+/".data

/-- The character of a 6-bit value. -/
def b64Char (n : Nat) : Char := b64Alphabet.getD n 'A'

/-- The 6-bit value of a character of the alphabet. -/
def b64Index (c : Char) : Option Nat :=
  let i := b64Alphabet.indexOf c
  if i < 64 then some i else none

/-- Standard base64 with padding, as `encoding/json` writes a `[]byte`. -/
def base64Encode : List Nat → List Char
  | [] => []
  | [a] => [b64Char (a / 4), b64Char (a % 4 * 16), '=', '=']
  | [a, b] => [b64Char (a / 4), b64Char (a % 4 * 16 + b / 16), b64Char (b % 16 * 4), '=']
  | a :: b :: c :: rest =>
    b64Char (a / 4) :: b64Char (a % 4 * 16 + b / 16) :: b64Char (b % 16 * 4 + c / 64) ::
      b64Char (c % 64) :: base64Encode rest

/-- Decoding of padded standard base64, four characters at a time; padding is
accepted in the last group only. -/
def base64DecodeChars : List Char → Option (List Nat)
  | [] => some []
  | c1 :: c2 :: c3 :: c4 :: rest =>
    match b64Index c1, b64Index c2 with
    | some i1, some i2 =>
      if c3 = '=' then
        if c4 = '=' ∧ rest = [] then some [i1 * 4 + i2 / 16] else none
      else
        match b64Index c3 with
        | none => none
        | some i3 =>
          if c4 = '=' then
            if rest = [] then some [i1 * 4 + i2 / 16, i2 % 16 * 16 + i3 / 4] else none
          else
            match b64Index c4 with
            | none => none
            | some i4 =>
              (base64DecodeChars rest).map fun tl =>
                (i1 * 4 + i2 / 16) :: (i2 % 16 * 16 + i3 / 4) :: (i3 % 4 * 64 + i4) :: tl
    | _, _ => none
  | _ => none

/-- Decoding as `base64.StdEncoding.DecodeString` does it: carriage returns and
line feeds are skipped. -/
def base64Decode (s : String) : Option (List Nat) :=
  base64DecodeChars (s.data.filter fun c => c ≠ '\n' ∧ c ≠ '\r')

/-- Byte-wise order of two strings, as `encoding/json` sorts map keys. -/
def ltBytes : List Nat → List Nat → Bool
  | [], [] => false
  | [], _ :: _ => true
  | _ :: _, [] => false
  | a :: as, b :: bs => decide (a < b) || (a == b && ltBytes as bs)

/-- The order used to sort the keys of a map on output. -/
def keyLe (a b : Sigma fun _ : GoString => List GoString) : Bool := !ltBytes b.1 a.1

/-- A header map as `json.Marshal` writes it: an object with the keys sorted,
each value an array of strings. -/
def encodeHeaders (h : GoHeader) : Doc :=
  .obj ((h.entries.mergeSort keyLe).map fun kv => (kv.1, .arr (kv.2.map .str)))

/-- The members `json.Marshal` writes for an `Envelope`, following the struct
tags: `type` always, every other field only when it is not empty
(`omitempty`). -/
def marshalMembers (e : GoEnvelope) : List (GoString × Doc) :=
  [(bytesOf "type", .str e.Typ)]
  ++ (if e.AppID.length = 0 then [] else [(bytesOf "app_id", .str e.AppID)])
  ++ (if e.ReqID.length = 0 then [] else [(bytesOf "req_id", .str e.ReqID)])
  ++ (if e.Method.length = 0 then [] else [(bytesOf "method", .str e.Method)])
  ++ (if e.Path.length = 0 then [] else [(bytesOf "path", .str e.Path)])
  ++ (if e.Headers.entries.length = 0 then []
      else [(bytesOf "headers", encodeHeaders e.Headers)])
  ++ (if e.Status = 0 then [] else [(bytesOf "status", .num e.Status)])
  ++ (if e.Body.length = 0 then []
      else [(bytesOf "body", .str (bytesOf ⟨base64Encode e.Body⟩))])

/-- `Envelope.Marshal` of `main.go`: `json.Marshal(e)`, the bytes of the text
of the object with the members of `marshalMembers`. `json.Marshal` has no
error case for this struct. -/
def Envelope.Marshal (e : GoEnvelope) : Except String (List Nat) :=
  .ok (utf8Encode (printDoc (.obj (marshalMembers e))))

/-- The JSON object that the header map is read back as. -/
def headersJSON (h : GoHeader) : JSON :=
  .obj ((h.entries.mergeSort keyLe).map fun kv =>
    (textOf kv.1, .arr (kv.2.map fun v => .str (textOf v))))

/-- The members that the text of an envelope is read back as. -/
def membersJSON (e : GoEnvelope) : List (String × JSON) :=
  [("type", .str (textOf e.Typ))]
  ++ (if e.AppID.length = 0 then [] else [("app_id", .str (textOf e.AppID))])
  ++ (if e.ReqID.length = 0 then [] else [("req_id", .str (textOf e.ReqID))])
  ++ (if e.Method.length = 0 then [] else [("method", .str (textOf e.Method))])
  ++ (if e.Path.length = 0 then [] else [("path", .str (textOf e.Path))])
  ++ (if e.Headers.entries.length = 0 then [] else [("headers", headersJSON e.Headers)])
  ++ (if e.Status = 0 then [] else [("status", .num e.Status)])
  ++ (if e.Body.length = 0 then [] else [("body", .str ⟨base64Encode e.Body⟩)])

/-- Case folding of a rune for the match of an object key with a field name:
ASCII letters, and the two other runes that fold to an ASCII letter (long s,
Kelvin sign). -/
def foldRune (c : Char) : Char :=
  if c = Char.ofNat 0x17F then 's' else if c = Char.ofNat 0x212A then 'k' else c.toLower

/-- The folded form of a key. -/
def foldName (s : String) : List Char := s.data.map foldRune

/-- The JSON names of the fields of `Envelope`, in declaration order. -/
def fieldNames : List String :=
  ["type", "app_id", "req_id", "method", "path", "headers", "status", "body"]

/-- The field an object key decodes into: the one with exactly this name, or
else the first one whose name matches when case is ignored. -/
def matchField (key : String) : Option String :=
  match fieldNames.find? (fun n => n = key) with
  | some n => some n
  | none => fieldNames.find? (fun n => foldName n = foldName key)

/-- Decoding into a `string`: null leaves the old value. -/
def decodeString (v : JSON) (old : GoString) : Except String GoString :=
  match v with
  | .null => .ok old
  | .str s => .ok (bytesOf s)
  | _ => .error "json: cannot unmarshal into Go value of type string"

/-- Decoding into an `int`: null leaves the old value, a number has to fit. -/
def decodeInt (v : JSON) (old : Int) : Except String Int :=
  match v with
  | .null => .ok old
  | .num n =>
    if -(2 : Int) ^ 63 ≤ n ∧ n < (2 : Int) ^ 63 then .ok n
    else .error "json: cannot unmarshal number into Go value of type int"
  | _ => .error "json: cannot unmarshal into Go value of type int"

/-- Decoding the elements of an array into strings. -/
def decodeStrings : List JSON → Except String (List GoString)
  | [] => .ok []
  | x :: xs =>
    match decodeString x [], decodeStrings xs with
    | .ok s, .ok ss => .ok (s :: ss)
    | .error err, _ => .error err
    | _, .error err => .error err

/-- Decoding into a fresh `[]string`. -/
def decodeStringSlice (v : JSON) : Except String (List GoString) :=
  match v with
  | .null => .ok []
  | .arr xs => decodeStrings xs
  | _ => .error "json: cannot unmarshal into Go value of type []string"

/-- Decoding the members of an object into a map: each key is set to its
decoded value. -/
def decodeHeaderMembers : List (String × JSON) → GoHeader → Except String GoHeader
  | [], h => .ok h
  | (k, v) :: rest, h =>
    match decodeStringSlice v with
    | .ok vs => decodeHeaderMembers rest (h.insert (bytesOf k) vs)
    | .error err => .error err

/-- Decoding into a `map[string][]string`: null empties it, an object adds
its members. -/
def decodeHeaders (v : JSON) (old : GoHeader) : Except String GoHeader :=
  match v with
  | .null => .ok ∅
  | .obj members => decodeHeaderMembers members old
  | _ => .error "json: cannot unmarshal into Go value of type map[string][]string"

/-- Decoding the elements of an array into bytes. -/
def decodeByteElems : List JSON → Except String (List Nat)
  | [] => .ok []
  | x :: xs =>
    match x, decodeByteElems xs with
    | .null, .ok bs => .ok (0 :: bs)
    | .num n, .ok bs =>
      if 0 ≤ n ∧ n < 256 then .ok (n.toNat :: bs)
      else .error "json: cannot unmarshal number into Go value of type uint8"
    | _, .error err => .error err
    | _, _ => .error "json: cannot unmarshal into Go value of type uint8"

/-- Decoding into a `[]byte`: null empties it, a string is base64. -/
def decodeBytes (v : JSON) : Except String (List Nat) :=
  match v with
  | .null => .ok []
  | .str s =>
    match base64Decode s with
    | some b => .ok b
    | none => .error "illegal base64 data"
  | .arr xs => decodeByteElems xs
  | _ => .error "json: cannot unmarshal into Go value of type []uint8"

/-- Decoding one member of an object into the envelope. A key that matches no
field is skipped. -/
def unmarshalMember (key : String) (v : JSON) (e : GoEnvelope) : Except String GoEnvelope :=
  match matchField key with
  | some "type" => (decodeString v e.Typ).map fun x => { e with Typ := x }
  | some "app_id" => (decodeString v e.AppID).map fun x => { e with AppID := x }
  | some "req_id" => (decodeString v e.ReqID).map fun x => { e with ReqID := x }
  | some "method" => (decodeString v e.Method).map fun x => { e with Method := x }
  | some "path" => (decodeString v e.Path).map fun x => { e with Path := x }
  | some "headers" => (decodeHeaders v e.Headers).map fun x => { e with Headers := x }
  | some "status" => (decodeInt v e.Status).map fun x => { e with Status := x }
  | some "body" => (decodeBytes v).map fun x => { e with Body := x }
  | _ => .ok e

/-- Decoding the members of an object, in order, into the envelope. -/
def unmarshalMembers : List (String × JSON) → GoEnvelope → Except String GoEnvelope
  | [], e => .ok e
  | (k, v) :: rest, e =>
    match unmarshalMember k v e with
    | .ok e1 => unmarshalMembers rest e1
    | .error err => .error err

/-- Decoding a document into the envelope `e`: null leaves it as it is, an
object sets the fields its members name. -/
def unmarshalValue (j : JSON) (e : GoEnvelope) : Except String GoEnvelope :=
  match j with
  | .null => .ok e
  | .obj members => unmarshalMembers members e
  | _ => .error "json: cannot unmarshal into Go value of type main.Envelope"

/-- `Envelope.Unmarshal` of `main.go`: `json.Unmarshal(b, e)`. The bytes are
read as text (a byte that is not well-formed UTF-8 as `U+FFFD`, which is what
the decoder stores for it inside a string and is no JSON outside one); the
text has to be one JSON document, which is then decoded into `e`. -/
def Envelope.Unmarshal (b : List Nat) (e : GoEnvelope) : Except String GoEnvelope :=
  match parseJSON (utf8Decode b) with
  | none => .error "json: syntax error"
  | some j => unmarshalValue j e

/-! ## Concrete inputs used by the examples -/

/-- A small stand-in for the URL functions of the library, for the examples:
`http://host/path` is split at the first slash after the host. It gives what
`url.Parse` gives on the URLs of the examples and is not meant beyond them. -/
def exampleLib : Lib where
  urlParse s :=
    if HasPrefix s "http://" then
      let rest := (TrimPrefix s "http://").data
      some { Scheme := "http", Host := ⟨rest.takeWhile fun c => c ≠ '/'⟩,
             Path := ⟨rest.dropWhile fun c => c ≠ '/'⟩ }
    else none
  urlString u := u.Scheme ++ "://" ++ u.Host ++ u.Path
  canonicalHeaderKey k := k

/-- The target base URL that `main` builds for port 8082. -/
def exampleBase : String := "http://127.0.0.1:8082"

/-- A well-formed request frame. -/
def exampleRequest : Envelope :=
  { Typ := TypeRequest, ReqID := "1", Method := "GET", Path := "/foo",
    Headers := AList.singleton "Accept" ["*/*"] }

/-- A request frame whose method is not an HTTP token. -/
def badMethodRequest : Envelope :=
  { Typ := TypeRequest, ReqID := "1", Method := "BAD METHOD", Path := "/foo",
    Headers := AList.singleton "Accept" ["*/*"] }

/-- The response headers `X-Foo: a`, `X-Foo: b`. -/
def exampleHeaders : Header := AList.singleton "X-Foo" ["a", "b"]

/-- A local service that answers 201 with `X-Foo: a`, `X-Foo: b` and `hello`. -/
def exampleService : Request → Except String Response :=
  fun _ => .ok { StatusCode := 201, Header := exampleHeaders, Body := stringBytes "hello" }

/-- A local service that cannot be reached. -/
def unreachableService : Request → Except String Response :=
  fun _ => .error "dial tcp 127.0.0.1:8082: connect: connection refused"

/-- A response with a header that has two values, one of them outside ASCII,
another header that `range` visits after it and that sorts before it, and a
body. -/
def goResponse : GoEnvelope :=
  { Typ := bytesOf "response", ReqID := bytesOf "1", Status := 201,
    Headers := AList.insert (bytesOf "X-Foo") [bytesOf "a", bytesOf "café"]
      (AList.singleton (bytesOf "Content-Type") [bytesOf "text/plain"]),
    Body := [104, 101, 108, 108, 111] }

/-- A request whose `app_id` is the single byte `0xFF`, which is not UTF-8. -/
def invalidAppID : GoEnvelope :=
  { Typ := bytesOf "request", AppID := [255] }

/-- An iteration in which a request frame with this `req_id` is read, the local
service answers and the response is written. -/
def requestArrives (id : String) : Iter :=
  { read := .ok { exampleRequest with ReqID := id }, Do := exampleService }

/-- An iteration in which a request frame is read and the write of the response
fails. -/
def responseWriteFails : Iter :=
  { read := .ok exampleRequest, Do := exampleService, write := some "write: broken pipe" }

/-- The error text of a read that runs into the read deadline. -/
def ioTimeout : String := "read tcp 10.0.0.2:51000->10.0.0.1:443: i/o timeout"

/-- A step in which the read of the next frame runs into the read deadline. -/
def readDeadlinePasses : Step :=
  { arrival := .failure ioTimeout, now := 5 * Second }

/-- A step in which a ping frame reaches the connection. -/
def pingReaches : Step :=
  { arrival := .message (.ok { Typ := TypePing }) }

/-- An iteration in which a ping frame is read and the write of the pong fails. -/
def pingWriteFails : Iter :=
  { read := .ok { Typ := TypePing }, write := some "write: broken pipe" }

/-- An iteration in which a read fails because the peer closed the connection. -/
def readFails : Iter :=
  { read := .error "websocket: close 1006 (abnormal closure): unexpected EOF" }

/-- An iteration in which a ping frame is read and the pong is written. -/
def pingArrives : Iter :=
  { read := .ok { Typ := TypePing, AppID := "app", ReqID := "7", Status := 3 } }

/-- An iteration in which a frame of type response is read. -/
def responseArrives : Iter :=
  { read := .ok { Typ := TypeResponse, ReqID := "9", Status := 200 } }

/-- The `req_id` values of the request frames read in `its`, in arrival order. -/
def requestIDs : List Iter → List String
  | [] => []
  | it :: rest =>
    match it.read with
    | .ok env => if env.Typ = TypeRequest then env.ReqID :: requestIDs rest else requestIDs rest
    | .error _ => requestIDs rest

/-- The `req_id` values of the envelopes of type response written on the
connection, in the order of the writes. -/
def responseIDs : List Effect → List String
  | [] => []
  | .writeJSON env _ :: rest =>
    if env.Typ = TypeResponse then env.ReqID :: responseIDs rest else responseIDs rest
  | _ :: rest => responseIDs rest

/-! ## `joinPath` -/

theorem TrimPrefix_of_not (s pre : String) (h : HasPrefix s pre = false) :
    TrimPrefix s pre = s := by
  simp [TrimPrefix, h]

theorem TrimSuffix_of_not (s suffix : String) (h : HasSuffix s suffix = false) :
    TrimSuffix s suffix = s := by
  simp [TrimSuffix, h]

theorem TrimPrefix_append (pre s : String) : TrimPrefix (pre ++ s) pre = s := by
  have h : HasPrefix (pre ++ s) pre = true := by
    simp [HasPrefix, String.data_append]
  simp [TrimPrefix, h, String.data_append]

theorem TrimSuffix_append (s suffix : String) : TrimSuffix (s ++ suffix) suffix = s := by
  have h : HasSuffix (s ++ suffix) suffix = true := by
    simp [HasSuffix, String.data_append]
  simp [TrimSuffix, h, String.data_append]

/-- C4, as stated, fails: with `p = "/bar"` and `q = "/foo"` the four calls do
not all return `p + "/" + q`; already `joinPath p q` is `"/bar/foo"`, not
`"/bar//foo"`. -/
theorem joinPath_every_string_counterexample :
    ¬ (joinPath "/bar" "/foo" = "/bar" ++ "/" ++ "/foo" ∧
       joinPath ("/bar" ++ "/") "/foo" = "/bar" ++ "/" ++ "/foo" ∧
       joinPath "/bar" ("/" ++ "/foo") = "/bar" ++ "/" ++ "/foo" ∧
       joinPath ("/bar" ++ "/") ("/" ++ "/foo") = "/bar" ++ "/" ++ "/foo") := by
  decide

/-- C4, amended: for every `p` that does not end in a slash and every `q` that
does not begin with one, `joinPath` returns exactly `p + "/" + q` for each of
the four choices of a trailing slash on the base and a leading slash on the
path. -/
theorem joinPath_one_slash (p q : String)
    (hp : HasSuffix p "/" = false) (hq : HasPrefix q "/" = false) :
    joinPath p q = p ++ "/" ++ q ∧
    joinPath (p ++ "/") q = p ++ "/" ++ q ∧
    joinPath p ("/" ++ q) = p ++ "/" ++ q ∧
    joinPath (p ++ "/") ("/" ++ q) = p ++ "/" ++ q := by
  simp [joinPath, TrimPrefix_of_not _ _ hq, TrimSuffix_of_not _ _ hp, TrimPrefix_append,
    TrimSuffix_append, String.append_assoc]

theorem joinPath_one_slash_witness :
    (HasSuffix "/bar" "/" = false ∧ HasPrefix "foo" "/" = false) ∧
    (joinPath "/bar" "foo" = "/bar/foo" ∧
     joinPath "/bar/" "foo" = "/bar/foo" ∧
     joinPath "/bar" "/foo" = "/bar/foo" ∧
     joinPath "/bar/" "/foo" = "/bar/foo") :=
  ⟨by decide, joinPath_one_slash "/bar" "foo" (by decide) (by decide)⟩

/-! ## `CloneHeaders` -/

theorem copy_makeStrings (v : List String) : copy (makeStrings v.length) v = v := by
  simp [copy, makeStrings]

/-- Setting the keys of a duplicate-free entry list one after the other: a key
of the list ends with its value, any other key keeps what it had. -/
theorem lookup_foldl_insert (es : List (Sigma fun _ : String => List String))
    (hn : es.NodupKeys) (acc : Header) (k : String) :
    (es.foldl (fun out kv => out.insert kv.1 (copy (makeStrings kv.2.length) kv.2)) acc).lookup k
      = match List.dlookup k es with
        | some v => some v
        | none => acc.lookup k := by
  induction es generalizing acc with
  | nil => simp
  | cons x t ih =>
    obtain ⟨a, b⟩ := x
    rw [List.nodupKeys_cons] at hn
    rw [List.foldl_cons, ih hn.2]
    by_cases hk : k = a
    · subst hk
      have : List.dlookup k t = none := by
        rw [List.dlookup_eq_none]; exact hn.1
      simp [this, copy_makeStrings]
    · rw [List.dlookup_cons_ne _ _ hk]
      cases List.dlookup k t with
      | some v => rfl
      | none => simp [AList.lookup_insert_ne hk]

theorem CloneHeaders_same (h : Header) : Header.Same (CloneHeaders h) h := by
  intro k
  unfold CloneHeaders cloneEntries
  rw [lookup_foldl_insert h.entries h.nodupKeys ∅ k]
  cases hk : List.dlookup k h.entries with
  | some v => simp [AList.lookup, hk]
  | none => simp [AList.lookup, hk]

/-! ## `handleRequest` -/

/-- The method `BAD METHOD` is rejected by `http.NewRequest`. -/
theorem NewRequest_invalid_method (lib : Lib) (url : String) (body : List Nat) :
    NewRequest lib "BAD METHOD" url body = none := by
  have hv : validMethod "BAD METHOD" = false := by decide
  simp [NewRequest, hv]

/-- The request with the method `BAD METHOD` makes `handleRequest` panic. -/
theorem handleRequest_badMethodRequest (lib : Lib)
    (Do : Request → Except String Response) (base : String) :
    handleRequest lib Do base badMethodRequest = ([], .panics nilDereference) := by
  unfold handleRequest
  cases lib.urlParse base with
  | none => rfl
  | some u =>
    have hm : badMethodRequest.Method = "BAD METHOD" := rfl
    simp [hm, NewRequest_invalid_method]

theorem TypeRequest_ne_TypePing : TypeRequest ≠ TypePing := by decide

/-- C1 fails on the code: a request whose method is not an HTTP token (here
`BAD METHOD`) makes `http.NewRequest` return a nil request, whose error the
code discards; `handleRequest` then panics instead of returning an envelope,
for every base URL and every behaviour of the local service. -/
theorem handleRequest_invalid_method_panics (lib : Lib)
    (Do : Request → Except String Response) (base : String) (req : Envelope) :
    handleRequest lib Do base { req with Method := "BAD METHOD" }
      = ([], .panics nilDereference) := by
  unfold handleRequest
  cases lib.urlParse base with
  | none => rfl
  | some u => simp [NewRequest_invalid_method]

/-- A base URL that does not parse has the same effect: `u` is nil and
`u.Path = ...` panics, whatever the request. -/
theorem handleRequest_invalid_base_panics (lib : Lib)
    (Do : Request → Except String Response) (base : String) (req : Envelope)
    (h : lib.urlParse base = none) :
    handleRequest lib Do base req = ([], .panics nilDereference) := by
  simp [handleRequest, h]

/-- C2: when the local call is made (the base URL parses and the request is
built) and succeeds with status `s`, headers `h` and body `b`, `handleRequest`
returns the envelope of type response with the request's `req_id`, status `s`,
headers `CloneHeaders h` and body `b`, every other field empty; and
`CloneHeaders h` has exactly the keys of `h`, each with the same values in
the same order. -/
theorem handleRequest_success (lib : Lib) (Do : Request → Except String Response)
    (base : String) (req : Envelope) (u : URL) (httpReq : Request)
    (s : Int) (h : Header) (b : List Nat)
    (hu : lib.urlParse base = some u)
    (hr : NewRequest lib req.Method
      (lib.urlString { u with Path := joinPath u.Path req.Path }) req.Body = some httpReq)
    (hd : Do { httpReq with Header := addHeaders lib req.Headers httpReq.Header }
      = .ok { StatusCode := s, Header := h, Body := b }) :
    (handleRequest lib Do base req).2 = .returns {
        Typ := TypeResponse, AppID := "", ReqID := req.ReqID, Method := "", Path := "",
        Headers := CloneHeaders h, Status := s, Body := b } ∧
      ∀ k, (CloneHeaders h).lookup k = h.lookup k := by
  refine ⟨?_, CloneHeaders_same h⟩
  simp [handleRequest, hu, hr, hd]

theorem handleRequest_success_witness :
    (handleRequest exampleLib exampleService exampleBase exampleRequest).2 = .returns {
        Typ := "response", AppID := "", ReqID := "1", Method := "", Path := "",
        Headers := CloneHeaders exampleHeaders, Status := 201,
        Body := [104, 101, 108, 108, 111] } ∧
      ∀ k, (CloneHeaders exampleHeaders).lookup k = exampleHeaders.lookup k :=
  handleRequest_success exampleLib exampleService exampleBase exampleRequest
    { Scheme := "http", Host := "127.0.0.1:8082", Path := "" }
    { Method := "GET", URL := { Scheme := "http", Host := "127.0.0.1:8082", Path := "/foo" },
      Header := ∅, Body := [] }
    201 exampleHeaders [104, 101, 108, 108, 111] rfl rfl rfl

/-- The bytes of the fixed body of the 502 envelope. -/
theorem agentRequestError_bytes :
    stringBytes "agent request error"
      = [97, 103, 101, 110, 116, 32, 114, 101, 113, 117, 101, 115, 116, 32, 101, 114, 114, 111,
          114] := by
  decide

/-- C3: when the local call is made and fails with the error description `d`,
`handleRequest` returns the envelope of type response with the request's
`req_id`, status 502, the fixed body `agent request error` (its 19 bytes),
and a headers map whose one entry is `X-Agent-Error` with the one value `d`. -/
theorem handleRequest_transport_error (lib : Lib) (Do : Request → Except String Response)
    (base : String) (req : Envelope) (u : URL) (httpReq : Request) (d : String)
    (hu : lib.urlParse base = some u)
    (hr : NewRequest lib req.Method
      (lib.urlString { u with Path := joinPath u.Path req.Path }) req.Body = some httpReq)
    (hd : Do { httpReq with Header := addHeaders lib req.Headers httpReq.Header } = .error d) :
    ∃ resp, (handleRequest lib Do base req).2 = .returns resp ∧
      resp.Typ = "response" ∧ resp.Status = 502 ∧ resp.ReqID = req.ReqID ∧
      resp.Body = 
        [97, 103, 101, 110, 116, 32, 114, 101, 113, 117, 101, 115, 116, 32, 101, 114, 114, 111, 114] ∧
      resp.Headers.entries = [⟨"X-Agent-Error", [d]⟩] ∧
      resp.Headers.lookup "X-Agent-Error" = some [d] ∧
      resp.AppID = "" ∧ resp.Method = "" ∧ resp.Path = "" := by
  refine ⟨{ Typ := TypeResponse, ReqID := req.ReqID, Status := StatusBadGateway,
            Headers := AList.singleton "X-Agent-Error" [d],
            Body := stringBytes "agent request error" },
    ?_, rfl, rfl, rfl, agentRequestError_bytes, rfl, ?_, rfl, rfl, rfl⟩
  · simp only [handleRequest, hu, hr, hd]
  · simp [AList.lookup, AList.singleton]

theorem handleRequest_transport_error_witness :
    ∃ resp, (handleRequest exampleLib unreachableService exampleBase exampleRequest).2
        = .returns resp ∧
      resp.Typ = "response" ∧ resp.Status = 502 ∧ resp.ReqID = "1" ∧
      resp.Body = 
        [97, 103, 101, 110, 116, 32, 114, 101, 113, 117, 101, 115, 116, 32, 101, 114, 114, 111, 114] ∧
      resp.Headers.entries
        = [⟨"X-Agent-Error", ["dial tcp 127.0.0.1:8082: connect: connection refused"]⟩] ∧
      resp.Headers.lookup "X-Agent-Error"
        = some ["dial tcp 127.0.0.1:8082: connect: connection refused"] ∧
      resp.AppID = "" ∧ resp.Method = "" ∧ resp.Path = "" :=
  handleRequest_transport_error exampleLib unreachableService exampleBase exampleRequest
    { Scheme := "http", Host := "127.0.0.1:8082", Path := "" }
    { Method := "GET", URL := { Scheme := "http", Host := "127.0.0.1:8082", Path := "/foo" },
      Header := ∅, Body := [] }
    "dial tcp 127.0.0.1:8082: connect: connection refused" rfl rfl rfl

/-! ## `loop` -/

/-- One iteration of `loop` whose read returns an error with `timeout` or
`deadline` in its text: nothing is written, the read deadline is set to 60
seconds from now, and `loop` reads again. -/
theorem loop_timeout_step (lib : Lib) (base : String) (it : Iter) (rest : List Iter)
    (err : String) (hr : it.read = .error err)
    (h : Contains err "timeout" = true ∨ Contains err "deadline" = true) :
    loop lib base (it :: rest)
      = (.setReadDeadline (it.now + 60 * 1000000000) :: (loop lib base rest).1,
         (loop lib base rest).2) := by
  have hc : (Contains err "timeout" || Contains err "deadline") = true := by
    rcases h with h | h <;> simp [h]
  simp only [loop, hr, hc, if_true, Second]

/-- A read that fails with any other error makes `loop` return that error at
once, with nothing written. -/
theorem loop_fatal_read_failure (lib : Lib) (base : String) (it : Iter) (rest : List Iter)
    (err : String) (hr : it.read = .error err)
    (h : Contains err "timeout" = false ∧ Contains err "deadline" = false) :
    loop lib base (it :: rest) = ([], .returned err) := by
  simp [loop, hr, h.1, h.2]

theorem loop_fatal_read_failure_witness :
    loop exampleLib exampleBase [readFails, pingArrives]
      = ([], .returned "websocket: close 1006 (abnormal closure): unexpected EOF") :=
  loop_fatal_read_failure exampleLib exampleBase readFails [pingArrives] _ rfl
    ⟨by decide, by decide⟩

/-- A run of `loop` in which every read returns the same timeout error: the
read deadline is set once per iteration and `loop` is still reading. -/
theorem loop_timeouts (lib : Lib) (base : String) (err : String)
    (h : Contains err "timeout" = true ∨ Contains err "deadline" = true) (its : List Iter)
    (hits : ∀ it ∈ its, it.read = .error err) :
    loop lib base its
      = (its.map fun it => Effect.setReadDeadline (it.now + 60 * 1000000000), .reading) := by
  induction its with
  | nil => rfl
  | cons it rest ih =>
    rw [loop_timeout_step lib base it rest err (hits it (by simp)) h,
      ih (fun x hx => hits x (by simp [hx]))]
    rfl

/-- On a connection whose read has failed with `err`, after `k` counted
failures: every step is an iteration whose read returns `err`, until the read
that is the 1000th counted failure, which panics. -/
theorem connIters_failed (err : String) (steps : List Step) :
    ∀ k, connIters { readErr := some err, readErrCount := k } steps
      = ((steps.take (999 - k)).map fun s =>
            { read := .error err, now := s.now, Do := s.Do, write := s.write },
         decide (999 - k < steps.length)) := by
  induction steps with
  | nil => intro k; simp [connIters]
  | cons s rest ih =>
    intro k
    by_cases hk : 1000 ≤ k + 1
    · have h0 : 999 - k = 0 := by omega
      simp [connIters, Conn.ReadJSON, Conn.failedRead, hk, h0]
    · have h1 : 999 - k = (999 - (k + 1)) + 1 := by omega
      have h2 : (999 - (k + 1) < rest.length) ↔ (999 - k < rest.length + 1) := by omega
      simp only [connIters, Conn.ReadJSON, Conn.failedRead, hk, if_false, ih (k + 1)]
      rw [h1, List.take_succ_cons, List.map_cons, List.length_cons]
      simp only [Prod.mk.injEq, true_and, decide_eq_decide]
      omega

/-- On a fresh connection whose first read fails with a timeout, every later
read returns that error: `loop` only sets the read deadline, once after each
of the first 999 reads, and the 1000th read panics. -/
theorem loopOnConn_after_timeout (lib : Lib) (base : String) (err : String)
    (h : Contains err "timeout" = true ∨ Contains err "deadline" = true)
    (s0 : Step) (h0 : s0.arrival = .failure err) (later : List Step) :
    loopOnConn lib base {} (s0 :: later)
      = ((s0 :: later.take 998).map fun s => Effect.setReadDeadline (s.now + 60 * 1000000000),
         if 998 < later.length then .panicked repeatedRead else .reading) := by
  have hc : connIters {} (s0 :: later)
      = ((s0 :: later.take 998).map fun s =>
            { read := .error err, now := s.now, Do := s.Do, write := s.write },
         decide (998 < later.length)) := by
    have := connIters_failed err later 1
    simp only [connIters, Conn.ReadJSON, Conn.failedRead, h0]
    simp only [Nat.zero_add, Nat.reduceLeDiff, if_false, this]
    rfl
  have hl := loop_timeouts lib base err h
    ((s0 :: later.take 998).map fun s =>
      ({ read := .error err, now := s.now, Do := s.Do, write := s.write } : Iter))
    (by
      intro it hit
      simp only [List.mem_map] at hit
      obtain ⟨s, -, rfl⟩ := hit
      rfl)
  simp only [loopOnConn, hc, hl, List.map_map, decide_eq_true_eq]
  rfl

/-- C8 fails on the code for the timeout: on the websocket connection a failed
read is kept, so after a read that runs into the read deadline `loop` never
reads another frame. Whatever reaches the connection later, the only effects
are calls of `SetReadDeadline`, one after each of the first 999 reads, and
the 1000th read panics: the session does end, and a frame that arrives after
the timeout is not processed. -/
theorem loop_timeout_never_reads_again (lib : Lib) (base : String) (later : List Step) :
    loopOnConn lib base {} (readDeadlinePasses :: later)
      = ((readDeadlinePasses :: later.take 998).map fun s =>
            Effect.setReadDeadline (s.now + 60 * 1000000000),
         if 998 < later.length then .panicked repeatedRead else .reading) :=
  loopOnConn_after_timeout lib base ioTimeout (Or.inl (by decide)) readDeadlinePasses rfl later

/-- An instance: the deadline passes once and 999 pings arrive afterwards;
no pong is written and the run ends with the panic. -/
theorem loop_timeout_then_pings (lib : Lib) (base : String) :
    loopOnConn lib base {} (readDeadlinePasses :: List.replicate 999 pingReaches)
      = (.setReadDeadline 65000000000 :: List.replicate 998 (.setReadDeadline 60000000000),
         .panicked repeatedRead) := by
  have h1 : min 998 999 = 998 := by omega
  have h2 : (998 : Nat) < 999 := by omega
  have hn0 : readDeadlinePasses.now + 60 * 1000000000 = 65000000000 := rfl
  have hn1 : pingReaches.now + 60 * 1000000000 = 60000000000 := rfl
  rw [loopOnConn_after_timeout lib base ioTimeout (Or.inl (by decide)) readDeadlinePasses rfl,
    List.take_replicate, List.length_replicate, h1, List.map_cons, List.map_replicate, hn0, hn1,
    if_pos h2]

/-- C9: for a decoded frame of type ping, whatever its other fields hold,
`loop` writes exactly one envelope, of type pong with every other field empty
or zero; the local service is not called, and the run goes on with the next
iterations, whether or not the write succeeded. -/
theorem loop_ping (lib : Lib) (base : String) (it : Iter) (rest : List Iter)
    (env : Envelope) (hr : it.read = .ok env) (hp : env.Typ = TypePing) :
    loop lib base (it :: rest)
      = (.log "[agent] received ping"
          :: .writeJSON { Typ := TypePong, AppID := "", ReqID := "", Method := "", Path := "",
                          Headers := ∅, Status := 0, Body := [] } it.write
          :: (loop lib base rest).1,
         (loop lib base rest).2) := by
  simp only [loop, hr, hp, if_true]

theorem loop_ping_witness :
    loop exampleLib exampleBase [pingArrives, readFails]
      = ([.log "[agent] received ping",
          .writeJSON { Typ := "pong", AppID := "", ReqID := "", Method := "", Path := "",
                       Headers := ∅, Status := 0, Body := [] } none],
         .returned "websocket: close 1006 (abnormal closure): unexpected EOF") :=
  loop_ping exampleLib exampleBase pingArrives [readFails] _ rfl rfl

/-- C10: a decoded frame whose type is neither request nor ping leaves no
trace: nothing is written, the local service is not called, `loop` does not
return, and the run is that of the next iterations. -/
theorem loop_discard (lib : Lib) (base : String) (it : Iter) (rest : List Iter)
    (env : Envelope) (hr : it.read = .ok env)
    (hreq : env.Typ ≠ TypeRequest) (hping : env.Typ ≠ TypePing) :
    loop lib base (it :: rest) = loop lib base rest := by
  simp [loop, hr, hreq, hping]

theorem loop_discard_witness :
    loop exampleLib exampleBase [responseArrives, pingArrives]
      = loop exampleLib exampleBase [pingArrives] :=
  loop_discard exampleLib exampleBase responseArrives [pingArrives] _ rfl
    (by decide) (by decide)

/-- C7 fails on the code for the pong: the result of `c.WriteJSON` of the pong
is dropped, so after a failed write of the pong `loop` goes on with the next
iterations instead of returning the failure. -/
theorem loop_pong_write_failure_ignored (lib : Lib) (base : String) (rest : List Iter) :
    loop lib base (pingWriteFails :: rest)
      = (.log "[agent] received ping"
          :: .writeJSON { Typ := TypePong } (some "write: broken pipe")
          :: (loop lib base rest).1,
         (loop lib base rest).2) := by
  simp [loop, pingWriteFails]

/-- The sibling path: a failed write of the response ends `loop` with that
failure. -/
theorem loop_response_write_failure (lib : Lib) (base : String) (it : Iter)
    (rest : List Iter) (env resp : Envelope) (fx : List Effect) (err : String)
    (hr : it.read = .ok env) (hreq : env.Typ = TypeRequest)
    (hf : handleRequest lib it.Do base env = (fx, .returns resp))
    (hw : it.write = some err) :
    loop lib base (it :: rest) = (fx ++ [.writeJSON resp (some err)], .returned err) := by
  simp [loop, hr, hreq, TypeRequest_ne_TypePing, hf, hw]

/-- C6 fails on the code through the defect of C1: a request frame whose
method is not an HTTP token makes `handleRequest` panic, so `loop` writes no
response for it (and none for any later frame). -/
theorem loop_invalid_method_panics (lib : Lib) (base : String) (rest : List Iter) :
    loop lib base ({ read := .ok badMethodRequest } :: rest)
      = ([], .panicked nilDereference) := by
  have hreq : badMethodRequest.Typ = TypeRequest := rfl
  simp [loop, hreq, TypeRequest_ne_TypePing, handleRequest_badMethodRequest]


theorem responseIDs_append (a b : List Effect) :
    responseIDs (a ++ b) = responseIDs a ++ responseIDs b := by
  induction a with
  | nil => rfl
  | cons x t ih =>
    cases x with
    | writeJSON env err =>
      by_cases h : env.Typ = TypeResponse <;> simp [responseIDs, h, ih]
    | log m => simpa [responseIDs] using ih
    | setReadDeadline t => simpa [responseIDs] using ih
    | httpDo r => simpa [responseIDs] using ih

/-- What `handleRequest` returns, when it returns, is a response that carries
the `req_id` of the request; nothing is written on the connection meanwhile. -/
theorem handleRequest_returns (lib : Lib) (Do : Request → Except String Response)
    (base : String) (req : Envelope) (fx : List Effect) (resp : Envelope)
    (h : handleRequest lib Do base req = (fx, .returns resp)) :
    resp.Typ = TypeResponse ∧ resp.ReqID = req.ReqID ∧ responseIDs fx = [] := by
  unfold handleRequest at h
  cases hu : lib.urlParse base with
  | none => simp [hu] at h
  | some u =>
    simp only [hu] at h
    cases hn : NewRequest lib req.Method
        (lib.urlString { u with Path := joinPath u.Path req.Path }) req.Body with
    | none => simp [hn] at h
    | some httpReq =>
      simp only [hn] at h
      cases hd : Do { httpReq with Header := addHeaders lib req.Headers httpReq.Header } with
      | error err =>
        simp only [hd, Prod.mk.injEq, Outcome.returns.injEq] at h
        obtain ⟨h1, h2⟩ := h
        subst h1 h2
        exact ⟨rfl, rfl, rfl⟩
      | ok httpResp =>
        simp only [hd, Prod.mk.injEq, Outcome.returns.injEq] at h
        obtain ⟨h1, h2⟩ := h
        subst h1 h2
        exact ⟨rfl, rfl, rfl⟩

/-- Strict FIFO when every forward returns: if every iteration reads a frame,
every write succeeds and `handleRequest` returns for every request frame,
then the `req_id` values of the responses written are those of the request
frames read, in arrival order, and `loop` is still reading. -/
theorem loop_fifo (lib : Lib) (base : String) (its : List Iter)
    (h : ∀ it ∈ its, it.write = none ∧ ∃ env, it.read = .ok env ∧
      (env.Typ = TypeRequest →
        ∃ fx resp, handleRequest lib it.Do base env = (fx, .returns resp))) :
    responseIDs (loop lib base its).1 = requestIDs its ∧
      (loop lib base its).2 = .reading := by
  induction its with
  | nil => exact ⟨rfl, rfl⟩
  | cons it rest ih =>
    have ih := ih (fun x hx => h x (List.mem_cons_of_mem _ hx))
    obtain ⟨hw, env, hr, hreq⟩ := h it (List.mem_cons_self _ _)
    by_cases hp : env.Typ = TypePing
    · have hne : env.Typ ≠ TypeRequest := by rw [hp]; decide
      have hpong : TypePong ≠ TypeResponse := by decide
      have hne2 : TypePing ≠ TypeRequest := by decide
      simp [loop, requestIDs, hr, hp, hne2, responseIDs, hpong, ih]
    · by_cases hq : env.Typ = TypeRequest
      · obtain ⟨fx, resp, hf⟩ := hreq hq
        obtain ⟨h1, h2, h3⟩ := handleRequest_returns _ _ _ _ _ _ hf
        simp [loop, requestIDs, hr, hp, hq, hf, hw, responseIDs_append, responseIDs, h1, h2, h3,
          ih, TypeRequest_ne_TypePing]
      · simp [loop, requestIDs, hr, hp, hq, ih]


/-! ## base64 -/

set_option maxRecDepth 100000 in
theorem b64Index_b64Char : ∀ n, n < 64 → b64Index (b64Char n) = some n := by
  decide

set_option maxRecDepth 100000 in
theorem b64Char_plain : ∀ n, n < 64 →
    b64Char n ≠ '=' ∧ b64Char n ≠ '\n' ∧ b64Char n ≠ '\r' := by
  decide

theorem base64DecodeChars_encode (bs : List Nat) (h : ∀ b ∈ bs, b < 256) :
    base64DecodeChars (base64Encode bs) = some bs := by
  induction bs using base64Encode.induct with
  | case1 => rfl
  | case2 a =>
    have ha : a < 256 := h a (by simp)
    have h1 := b64Index_b64Char (a / 4) (by omega)
    have h2 := b64Index_b64Char (a % 4 * 16) (by omega)
    simp only [base64Encode, base64DecodeChars, h1, h2]
    simp
    omega
  | case3 a b =>
    have ha : a < 256 := h a (by simp)
    have hb : b < 256 := h b (by simp)
    have h1 := b64Index_b64Char (a / 4) (by omega)
    have h2 := b64Index_b64Char (a % 4 * 16 + b / 16) (by omega)
    have h3 := b64Index_b64Char (b % 16 * 4) (by omega)
    have p3 := (b64Char_plain (b % 16 * 4) (by omega)).1
    simp only [base64Encode, base64DecodeChars, h1, h2, h3]
    simp [p3]
    omega
  | case4 a b c rest ih =>
    have ha : a < 256 := h a (by simp)
    have hb : b < 256 := h b (by simp)
    have hc : c < 256 := h c (by simp)
    have h1 := b64Index_b64Char (a / 4) (by omega)
    have h2 := b64Index_b64Char (a % 4 * 16 + b / 16) (by omega)
    have h3 := b64Index_b64Char (b % 16 * 4 + c / 64) (by omega)
    have h4 := b64Index_b64Char (c % 64) (by omega)
    have p3 := (b64Char_plain (b % 16 * 4 + c / 64) (by omega)).1
    have p4 := (b64Char_plain (c % 64) (by omega)).1
    have ih := ih (fun x hx => h x (by simp [hx]))
    simp only [base64Encode, base64DecodeChars, h1, h2, h3, h4]
    simp [p3, p4, ih]
    omega


theorem base64Encode_plain (bs : List Nat) (h : ∀ b ∈ bs, b < 256) :
    ∀ c ∈ base64Encode bs, c ≠ '\n' ∧ c ≠ '\r' := by
  induction bs using base64Encode.induct with
  | case1 => simp [base64Encode]
  | case2 a =>
    have ha : a < 256 := h a (by simp)
    have p1 := (b64Char_plain (a / 4) (by omega)).2
    have p2 := (b64Char_plain (a % 4 * 16) (by omega)).2
    intro c hc
    simp only [base64Encode, List.mem_cons, List.mem_singleton, List.not_mem_nil, or_false] at hc
    rcases hc with rfl | rfl | rfl | rfl
    · exact p1
    · exact p2
    · decide
    · decide
  | case3 a b =>
    have ha : a < 256 := h a (by simp)
    have hb : b < 256 := h b (by simp)
    have p1 := (b64Char_plain (a / 4) (by omega)).2
    have p2 := (b64Char_plain (a % 4 * 16 + b / 16) (by omega)).2
    have p3 := (b64Char_plain (b % 16 * 4) (by omega)).2
    intro c hc
    simp only [base64Encode, List.mem_cons, List.mem_singleton, List.not_mem_nil, or_false] at hc
    rcases hc with rfl | rfl | rfl | rfl
    · exact p1
    · exact p2
    · exact p3
    · decide
  | case4 a b c rest ih =>
    have ha : a < 256 := h a (by simp)
    have hb : b < 256 := h b (by simp)
    have hc : c < 256 := h c (by simp)
    have p1 := (b64Char_plain (a / 4) (by omega)).2
    have p2 := (b64Char_plain (a % 4 * 16 + b / 16) (by omega)).2
    have p3 := (b64Char_plain (b % 16 * 4 + c / 64) (by omega)).2
    have p4 := (b64Char_plain (c % 64) (by omega)).2
    have ih := ih (fun x hx => h x (by simp [hx]))
    intro x hx
    simp only [base64Encode, List.mem_cons] at hx
    rcases hx with rfl | rfl | rfl | rfl | hx
    · exact p1
    · exact p2
    · exact p3
    · exact p4
    · exact ih x hx

/-- Decoding the base64 text of a byte sequence gives the sequence back. -/
theorem base64Decode_encode (bs : List Nat) (h : ∀ b ∈ bs, b < 256) :
    base64Decode ⟨base64Encode bs⟩ = some bs := by
  have hf : (base64Encode bs).filter (fun c => decide (c ≠ '\n' ∧ c ≠ '\r')) = base64Encode bs := by
    rw [List.filter_eq_self]
    intro c hc
    simpa using base64Encode_plain bs h c hc
  unfold base64Decode
  rw [hf]
  exact base64DecodeChars_encode bs h


/-! ## UTF-8 -/

theorem char_valid (c : Char) : c.toNat < 0xD800 ∨ (0xDFFF < c.toNat ∧ c.toNat < 0x110000) := by
  have := c.valid
  simpa [Char.toNat, UInt32.isValidChar, Nat.isValidChar] using this

theorem decodeRune_encode (c : Char) (rest : List Nat) :
    ∃ b0 tl, utf8EncodeRune c.toNat ++ rest = b0 :: tl ∧
      decodeRune b0 tl = (some c.toNat, rest) := by
  have hv := char_valid c
  generalize c.toNat = n at hv
  unfold utf8EncodeRune
  by_cases h1 : n < 0x80
  · exact ⟨n, rest, by simp [h1], by simp [decodeRune, h1]⟩
  by_cases h2 : n < 0x800
  · refine ⟨0xC0 + n / 64, (0x80 + n % 64) :: rest, by simp [h1, h2], ?_⟩
    have a1 : ¬ (0xC0 + n / 64 < 0x80) := by omega
    have a2 : isCont (0x80 + n % 64) = true := by simp [isCont]; omega
    have a3 : 0xC2 ≤ 0xC0 + n / 64 ∧ 0xC0 + n / 64 < 0xE0 := by omega
    have hval : (0xC0 + n / 64 - 0xC0) * 64 + (0x80 + n % 64 - 0x80) = n := by omega
    simp only [decodeRune, a1, a2, a3, if_false, if_true, Bool.true_eq_false, and_self, hval]
  by_cases h3 : n < 0x10000
  · refine ⟨0xE0 + n / 4096, (0x80 + n / 64 % 64) :: (0x80 + n % 64) :: rest,
      by simp [h1, h2, h3], ?_⟩
    have a1 : ¬ (0xE0 + n / 4096 < 0x80) := by omega
    have a2 : isCont (0x80 + n / 64 % 64) = true := by simp [isCont]; omega
    have a2' : isCont (0x80 + n % 64) = true := by simp [isCont]; omega
    have a3 : ¬ (0xC2 ≤ 0xE0 + n / 4096 ∧ 0xE0 + n / 4096 < 0xE0) := by omega
    have a4 : 0xE0 ≤ 0xE0 + n / 4096 ∧ 0xE0 + n / 4096 < 0xF0 := by omega
    have hval : (0xE0 + n / 4096 - 0xE0) * 4096 + (0x80 + n / 64 % 64 - 0x80) * 64
        + (0x80 + n % 64 - 0x80) = n := by omega
    simp only [decodeRune, a1, a2, a2', a3, a4, if_false, if_true, Bool.true_eq_false, hval]
    have a5 : 0x800 ≤ n ∧ ¬ (0xD800 ≤ n ∧ n < 0xE000) := by omega
    simp only [a5, not_false_eq_true, and_self, if_true]
  · refine ⟨0xF0 + n / 262144,
      (0x80 + n / 4096 % 64) :: (0x80 + n / 64 % 64) :: (0x80 + n % 64) :: rest,
      by simp [h1, h2, h3], ?_⟩
    have a1 : ¬ (0xF0 + n / 262144 < 0x80) := by omega
    have a2 : isCont (0x80 + n / 4096 % 64) = true := by simp [isCont]; omega
    have a2' : isCont (0x80 + n / 64 % 64) = true := by simp [isCont]; omega
    have a2'' : isCont (0x80 + n % 64) = true := by simp [isCont]; omega
    have a3 : ¬ (0xC2 ≤ 0xF0 + n / 262144 ∧ 0xF0 + n / 262144 < 0xE0) := by omega
    have a4 : ¬ (0xE0 ≤ 0xF0 + n / 262144 ∧ 0xF0 + n / 262144 < 0xF0) := by omega
    have a5 : 0xF0 ≤ 0xF0 + n / 262144 ∧ 0xF0 + n / 262144 < 0xF8 := by omega
    have hval : (0xF0 + n / 262144 - 0xF0) * 262144 + (0x80 + n / 4096 % 64 - 0x80) * 4096
        + (0x80 + n / 64 % 64 - 0x80) * 64 + (0x80 + n % 64 - 0x80) = n := by omega
    simp only [decodeRune, a1, a2, a2', a2'', a3, a4, a5, if_false, if_true,
      Bool.true_eq_false, hval]
    have a6 : 0x10000 ≤ n ∧ n < 0x110000 := by omega
    simp only [a6, and_self, if_true]

theorem runesAux_encode (cs : List Char) :
    ∀ fuel, cs.length ≤ fuel → runesAux fuel (utf8Encode cs) = cs.map some := by
  induction cs with
  | nil => intro fuel _; cases fuel <;> rfl
  | cons c t ih =>
    intro fuel hf
    obtain ⟨f, rfl⟩ : ∃ f, fuel = f + 1 := ⟨fuel - 1, by simp at hf; omega⟩
    obtain ⟨b0, tl, h1, h2⟩ := decodeRune_encode c (utf8Encode t)
    have : utf8Encode (c :: t) = b0 :: tl := by
      simpa [utf8Encode] using h1
    rw [this]
    simp only [runesAux, h2, Option.map_some', Char.ofNat_toNat, List.map_cons]
    rw [ih f (by simp at hf; omega)]

theorem length_le_utf8Encode (cs : List Char) : cs.length ≤ (utf8Encode cs).length := by
  induction cs with
  | nil => simp [utf8Encode]
  | cons c t ih =>
    have : 1 ≤ (utf8EncodeRune c.toNat).length := by
      unfold utf8EncodeRune
      repeat' split
      all_goals simp
    simp only [utf8Encode, List.flatMap_cons, List.length_append, List.length_cons] at ih ⊢
    omega

/-- The runes of the UTF-8 encoding of a text are its characters. -/
theorem runes_encode (cs : List Char) : runes (utf8Encode cs) = cs.map some :=
  runesAux_encode cs _ (length_le_utf8Encode cs)

/-- Decoding the UTF-8 encoding of a text gives the text back. -/
theorem utf8Decode_encode (cs : List Char) : utf8Decode (utf8Encode cs) = cs := by
  have h : ((fun r : Option Char => r.getD replacement) ∘ some) = id := rfl
  simp [utf8Decode, runes_encode, h]

theorem textOf_bytesOf (s : String) : textOf (bytesOf s) = s := by
  simp [textOf, bytesOf, utf8Decode_encode]

/-! ## JSON text -/

theorem hexValue_hexDigit : ∀ n, n < 16 → hexValue (hexDigit n) = some n := by decide

theorem parseHex4_00 (hi lo : Nat) (hhi : hi < 16) (hlo : lo < 16) (rest : List Char) :
    parseHex4 ('0' :: '0' :: hexDigit hi :: hexDigit lo :: rest) = some (hi * 16 + lo, rest) := by
  have h0 : hexValue '0' = some 0 := by decide
  simp [parseHex4, h0, hexValue_hexDigit hi hhi, hexValue_hexDigit lo hlo]

theorem parseHex4_202 (lo : Nat) (hlo : lo < 16) (rest : List Char) :
    parseHex4 ('2' :: '0' :: '2' :: hexDigit lo :: rest) = some (0x2020 + lo, rest) := by
  have h0 : hexValue '0' = some 0 := by decide
  have h2 : hexValue '2' = some 2 := by decide
  simp [parseHex4, h0, h2, hexValue_hexDigit lo hlo]


theorem parseChars_u (f : Nat) (c : Char) (R : List Char) (u : Nat) (rest1 : List Char)
    (hp : parseHex4 rest1 = some (u, R)) (hu : u = c.toNat) (hs : ¬ (0xD800 ≤ u ∧ u < 0xE000)) :
    parseChars (f + 1) ('\\' :: 'u' :: rest1)
      = (parseChars f R).map fun r => (c :: r.1, r.2) := by
  have h1 : ¬ ('\\' = '"') := by decide
  subst hu
  simp only [parseChars, h1, if_false, if_true, hp, hs, Char.ofNat_toNat]

theorem parseChars_step (f : Nat) (c : Char) (R : List Char) :
    parseChars (f + 1) (escapeChar c ++ R)
      = (parseChars f R).map fun r => (c :: r.1, r.2) := by
  unfold escapeChar
  by_cases h1 : c = '"'
  · subst h1; rfl
  by_cases h2 : c = '\\'
  · subst h2; rfl
  by_cases h3 : c = Char.ofNat 8
  · subst h3; rfl
  by_cases h4 : c = Char.ofNat 12
  · subst h4; rfl
  by_cases h5 : c = '\n'
  · subst h5; rfl
  by_cases h6 : c = '\r'
  · subst h6; rfl
  by_cases h7 : c = '\t'
  · subst h7; rfl
  simp only [h1, h2, h3, h4, h5, h6, h7, if_false]
  by_cases h8 : c.toNat < 32 ∨ c = '<' ∨ c = '>' ∨ c = '&'
  · have hlt : c.toNat < 256 := by
      rcases h8 with h | h | h | h
      · omega
      · subst h; decide
      · subst h; decide
      · subst h; decide
    simp only [h8, if_true]
    exact parseChars_u f c R (c.toNat / 16 * 16 + c.toNat % 16) _
      (parseHex4_00 _ _ (by omega) (by omega) R) (by omega) (by omega)
  simp only [h8, if_false]
  by_cases h9 : c.toNat = 0x2028 ∨ c.toNat = 0x2029
  · simp only [h9, if_true]
    exact parseChars_u f c R (0x2020 + c.toNat % 16) _
      (parseHex4_202 _ (by omega) R) (by omega) (by omega)
  have h8a : ¬ c.toNat < 32 := fun h => h8 (Or.inl h)
  simp [parseChars, h1, h2, h8a, h9]

theorem parseHex4_fffd (rest : List Char) :
    parseHex4 ('f' :: 'f' :: 'f' :: 'd' :: rest) = some (0xFFFD, rest) := by
  have hf : hexValue 'f' = some 15 := by decide
  have hd : hexValue 'd' = some 13 := by decide
  simp [parseHex4, hf, hd]

theorem parseChars_rune (f : Nat) (r : Option Char) (R : List Char) :
    parseChars (f + 1) (escapeRune r ++ R)
      = (parseChars f R).map fun p => (r.getD replacement :: p.1, p.2) := by
  cases r with
  | some c => exact parseChars_step f c R
  | none =>
    exact parseChars_u f replacement R 0xFFFD _ (parseHex4_fffd R) (by decide) (by decide)

theorem parseChars_escape (rs : List (Option Char)) (rest : List Char) :
    ∀ fuel, rs.length < fuel →
      parseChars fuel (rs.flatMap escapeRune ++ '"' :: rest)
        = some (rs.map fun r => r.getD replacement, rest) := by
  induction rs with
  | nil =>
    intro fuel hf
    obtain ⟨f, rfl⟩ : ∃ f, fuel = f + 1 := ⟨fuel - 1, by simp at hf; omega⟩
    simp [parseChars]
  | cons c t ih =>
    intro fuel hf
    obtain ⟨f, rfl⟩ : ∃ f, fuel = f + 1 := ⟨fuel - 1, by simp at hf; omega⟩
    have hf' : t.length < f := by simp at hf; omega
    rw [List.flatMap_cons, List.append_assoc, parseChars_rune, ih f hf']
    rfl

theorem length_le_flatMap_escapeRune (rs : List (Option Char)) :
    rs.length ≤ (rs.flatMap escapeRune).length := by
  induction rs with
  | nil => simp
  | cons c t ih =>
    have : 1 ≤ (escapeRune c).length := by
      cases c with
      | none => simp [escapeRune]
      | some c =>
        simp only [escapeRune]
        unfold escapeChar
        repeat' split
        all_goals simp
    simp only [List.flatMap_cons, List.length_append, List.length_cons]
    omega

/-- Reading back a string literal written by `printString`: the text of the
Go string. -/
theorem parseString_print (s : GoString) (rest : List Char) :
    ∃ body, printString s ++ rest = '"' :: body ∧ parseString body = some (textOf s, rest) := by
  refine ⟨(runes s).flatMap escapeRune ++ '"' :: rest, by simp [printString], ?_⟩
  have hl := length_le_flatMap_escapeRune (runes s)
  unfold parseString
  have hfuel : (runes s).length < ((runes s).flatMap escapeRune ++ '"' :: rest).length + 1 := by
    rw [List.length_append, List.length_cons]
    omega
  rw [parseChars_escape (runes s) rest _ hfuel]
  rfl

theorem digitChar_facts : ∀ d, d < 10 →
    (Char.ofNat (48 + d)).isDigit = true ∧ (Char.ofNat (48 + d)).toNat - 48 = d ∧
    Char.ofNat (48 + d) ≠ '-' ∧ (Char.ofNat (48 + d) = '0' → d = 0) := by
  decide

theorem closes_head (rest : List Char) (h : closes rest = true) :
    rest = [] ∨ ∃ c r, rest = c :: r ∧ (c = ',' ∨ c = ']' ∨ c = '}') := by
  cases rest with
  | nil => exact Or.inl rfl
  | cons c r =>
    right
    refine ⟨c, r, rfl, ?_⟩
    simpa [closes, or_assoc] using h

theorem span_isDigit_append (ds rest : List Char) (hd : ∀ d ∈ ds, d.isDigit = true)
    (hr : closes rest = true) : (ds ++ rest).span Char.isDigit = (ds, rest) := by
  have hrest : rest.takeWhile Char.isDigit = [] ∧ rest.dropWhile Char.isDigit = rest := by
    rcases closes_head rest hr with rfl | ⟨c, r, rfl, hc⟩
    · simp
    · have : c.isDigit = false := by rcases hc with rfl | rfl | rfl <;> decide
      simp [List.takeWhile_cons, List.dropWhile_cons, this]
  rw [List.span_eq_take_drop, List.takeWhile_append_of_pos hd, List.dropWhile_append_of_pos hd,
    hrest.1, hrest.2, List.append_nil]

theorem digitsValue_append (xs : List Char) (c : Char) :
    digitsValue (xs ++ [c]) = digitsValue xs * 10 + (c.toNat - 48) := by
  simp [digitsValue, List.foldl_append]

theorem digitsValue_digits (L : List Nat) (h : ∀ d ∈ L, d < 10) :
    digitsValue (L.reverse.map fun d => Char.ofNat (48 + d)) = Nat.ofDigits 10 L := by
  induction L with
  | nil => rfl
  | cons d t ih =>
    have hd := (digitChar_facts d (h d (by simp))).2.1
    rw [List.reverse_cons, List.map_append, List.map_singleton, digitsValue_append,
      ih (fun x hx => h x (by simp [hx])), hd, Nat.ofDigits_cons]
    omega

theorem printNat_facts (n : Nat) :
    (∀ d ∈ printNat n, d.isDigit = true) ∧ printNat n ≠ [] ∧ digitsValue (printNat n) = n ∧
    ¬ (1 < (printNat n).length ∧ (printNat n).head? = some '0') ∧
    (printNat n).head? ≠ some '-' := by
  by_cases hn : n = 0
  · subst hn
    simp [printNat]
    decide
  · have hlt : ∀ d ∈ Nat.digits 10 n, d < 10 := fun d hd => Nat.digits_lt_base (by omega) hd
    have hne : Nat.digits 10 n ≠ [] := Nat.digits_ne_nil_iff_ne_zero.mpr hn
    have hlast := Nat.getLast_digit_ne_zero 10 hn
    simp only [printNat, hn, if_false]
    refine ⟨?_, ?_, ?_, ?_, ?_⟩
    · intro d hd
      simp only [List.mem_map, List.mem_reverse] at hd
      obtain ⟨x, hx, rfl⟩ := hd
      exact (digitChar_facts x (hlt x hx)).1
    · simpa using hne
    · rw [digitsValue_digits _ hlt, Nat.ofDigits_digits]
    · rintro ⟨-, h0⟩
      rw [List.head?_map, List.head?_reverse, List.getLast?_eq_getLast _ hne] at h0
      simp only [Option.map_some', Option.some.injEq] at h0
      exact hlast ((digitChar_facts _ (hlt _ (List.getLast_mem hne))).2.2.2 h0)
    · rw [List.head?_map, List.head?_reverse, List.getLast?_eq_getLast _ hne]
      simp only [Option.map_some', ne_eq, Option.some.injEq]
      exact (digitChar_facts _ (hlt _ (List.getLast_mem hne))).2.2.1

theorem parseUnsigned_digits (neg : Bool) (all ds rest : List Char)
    (hd : ∀ d ∈ ds, d.isDigit = true) (hne : ds ≠ [])
    (hz : ¬ (1 < ds.length ∧ ds.head? = some '0')) (hr : closes rest = true) :
    parseUnsigned neg all (ds ++ rest)
      = some (.num (if neg then -(digitsValue ds : Int) else digitsValue ds), rest) := by
  have hspan := span_isDigit_append ds rest hd hr
  have hfrac : parseFraction rest = some rest := by
    rcases closes_head rest hr with rfl | ⟨c, r, rfl, hc⟩
    · rfl
    · rcases hc with rfl | rfl | rfl <;> rfl
  have hexp : parseExponent rest = some rest := by
    rcases closes_head rest hr with rfl | ⟨c, r, rfl, hc⟩
    · rfl
    · rcases hc with rfl | rfl | rfl <;> rfl
  simp only [parseUnsigned, hspan, hne, if_false, hz, hfrac, hexp, if_true]

/-- Reading back an integer written by `printInt`. -/
theorem parseNumber_print (n : Int) (rest : List Char) (hr : closes rest = true) :
    parseNumber (printInt n ++ rest) = some (.num n, rest) := by
  obtain ⟨hd, hne, hv, hz, hm⟩ := printNat_facts n.natAbs
  by_cases hn : n < 0
  · have h1 : (-(n.natAbs : Int)) = n := by omega
    simp only [printInt, hn, if_true, List.cons_append, parseNumber]
    rw [parseUnsigned_digits true _ _ rest hd hne hz hr, hv]
    simp only [if_true, h1]
  · have h1 : (n.natAbs : Int) = n := by omega
    obtain ⟨d0, dt, hdt⟩ := List.exists_cons_of_ne_nil hne
    have hd0 : d0 ≠ '-' := by
      rw [hdt] at hm
      simpa using hm
    simp only [printInt, hn, if_false]
    have := parseUnsigned_digits false (printNat n.natAbs ++ rest) _ rest hd hne hz hr
    rw [hv] at this
    rw [hdt] at this ⊢
    simp only [List.cons_append, parseNumber, hd0, if_false]
    simp only [Bool.false_eq_true, if_false, h1] at this
    exact this


theorem startsValue_facts (c : Char) (h : startsValue c = true) :
    isWs c = false ∧ c ≠ ']' ∧ c ≠ '}' ∧ c ≠ ',' := by
  have hd : c.isDigit = true → isWs c = false ∧ c ≠ ']' ∧ c ≠ '}' ∧ c ≠ ',' := by
    intro hd
    refine ⟨?_, ?_, ?_, ?_⟩
    · simp only [isWs, Bool.or_eq_false_iff, decide_eq_false_iff_not]
      refine ⟨⟨⟨?_, ?_⟩, ?_⟩, ?_⟩ <;> (rintro rfl; revert hd; decide)
    all_goals (rintro rfl; revert hd; decide)
  simp only [startsValue, Bool.or_eq_true, decide_eq_true_eq] at h
  rcases h with ((((((h | h) | h) | h) | h) | h) | h) | h
  · subst h; decide
  · subst h; decide
  · subst h; decide
  · subst h; decide
  · subst h; decide
  · subst h; decide
  · subst h; decide
  · exact hd h

theorem printInt_head (n : Int) :
    ∃ c r, printInt n = c :: r ∧ (c = '-' ∨ c.isDigit = true) := by
  obtain ⟨hd, hne, -, -, -⟩ := printNat_facts n.natAbs
  obtain ⟨d0, dt, hdt⟩ := List.exists_cons_of_ne_nil hne
  by_cases hn : n < 0
  · exact ⟨'-', printNat n.natAbs, by simp [printInt, hn], Or.inl rfl⟩
  · exact ⟨d0, dt, by simp [printInt, hn, hdt], Or.inr (hd d0 (by simp [hdt]))⟩

theorem printDoc_head (d : Doc) :
    ∃ c r, printDoc d = c :: r ∧ startsValue c = true := by
  cases d with
  | num n =>
    obtain ⟨c, r, h, hc⟩ := printInt_head n
    refine ⟨c, r, by simp [printDoc, h], ?_⟩
    rcases hc with rfl | hc
    · decide
    · simp [startsValue, hc]
  | str s => exact ⟨'"', _, by simp [printDoc, printString]; rfl, by decide⟩
  | arr xs => exact ⟨'[', _, by simp [printDoc]; rfl, by decide⟩
  | obj ms => exact ⟨'{', _, by simp [printDoc]; rfl, by decide⟩

theorem skipWs_cons (c : Char) (r : List Char) (h : isWs c = false) :
    skipWs (c :: r) = c :: r := by
  simp [skipWs, h]

theorem skipWs_closes (rest : List Char) (h : closes rest = true) : skipWs rest = rest := by
  rcases closes_head rest h with rfl | ⟨c, r, rfl, hc⟩
  · rfl
  · rcases hc with rfl | rfl | rfl <;> rfl

theorem parseValue_number (f : Nat) (c : Char) (r : List Char)
    (hc : c = '-' ∨ c.isDigit = true) :
    parseValue (f + 1) (c :: r) = parseNumber (c :: r) := by
  have hs : startsValue c = true := by
    rcases hc with rfl | hc
    · decide
    · simp [startsValue, hc]
  have hne : c ≠ '"' ∧ c ≠ '[' ∧ c ≠ '{' ∧ c ≠ 'n' ∧ c ≠ 't' ∧ c ≠ 'f' := by
    rcases hc with rfl | hc
    · decide
    · refine ⟨?_, ?_, ?_, ?_, ?_, ?_⟩ <;> (rintro rfl; revert hc; decide)
  obtain ⟨h1, h2, h3, h4, h5, h6⟩ := hne
  have n1 : ¬ ((c :: r).take 4 = "null".data) := by
    intro h; simp at h; exact h4 h.1
  have n2 : ¬ ((c :: r).take 4 = "true".data) := by
    intro h; simp at h; exact h5 h.1
  have n3 : ¬ ((c :: r).take 5 = "false".data) := by
    intro h; simp at h; exact h6 h.1
  simp only [parseValue, skipWs_cons c r (startsValue_facts c hs).1, h1, h2, h3, n1, n2, n3,
    if_false]

theorem parseValue_string (f : Nat) (s : GoString) (rest : List Char) :
    parseValue (f + 1) (printString s ++ rest) = some (.str (textOf s), rest) := by
  obtain ⟨body, hb, hp⟩ := parseString_print s rest
  have hws : isWs '"' = false := by decide
  rw [hb]
  simp only [parseValue, skipWs_cons _ _ hws, if_true, hp]
  rfl

theorem parseValue_open (f : Nat) (c : Char) (r : List Char)
    (hc : startsValue c = true) (hopen : c ≠ ']') :
    parseValue (f + 1) ('[' :: c :: r)
      = (parseElems f (c :: r)).map fun p => (.arr p.1, p.2) := by
  have hws : isWs '[' = false := by decide
  have h1 : ¬ ('[' = '"') := by decide
  simp only [parseValue, skipWs_cons _ _ hws, skipWs_cons _ _ (startsValue_facts c hc).1, h1,
    if_false, if_true, hopen]

theorem parseValue_brace (f : Nat) (r : List Char) :
    parseValue (f + 1) ('{' :: '"' :: r)
      = (parseMembers f ('"' :: r)).map fun p => (.obj p.1, p.2) := by
  rfl

theorem fuel_succ (n fuel : Nat) (h : n < fuel) : ∃ f, fuel = f + 1 := ⟨fuel - 1, by omega⟩

mutual
theorem parseValue_print : ∀ (d : Doc) (rest : List Char),
    closes rest = true → ∀ (fuel : Nat), (printDoc d).length < fuel →
    parseValue fuel (printDoc d ++ rest) = some (d.json, rest)
  | .num n, rest, hr, fuel, hf => by
    obtain ⟨f, rfl⟩ := fuel_succ _ _ hf
    obtain ⟨c, r, h, hc⟩ := printInt_head n
    have := parseNumber_print n rest hr
    simp only [printDoc, Doc.json]
    rw [h] at this ⊢
    rw [List.cons_append, parseValue_number f c _ hc]
    exact this
  | .str s, rest, _, fuel, hf => by
    obtain ⟨f, rfl⟩ := fuel_succ _ _ hf
    simp only [printDoc, Doc.json]
    exact parseValue_string f s rest
  | .arr [], rest, _, fuel, hf => by
    obtain ⟨f, rfl⟩ := fuel_succ _ _ hf
    rfl
  | .arr (x :: xs), rest, _, fuel, hf => by
    obtain ⟨f, rfl⟩ := fuel_succ _ _ hf
    obtain ⟨c, r, hc, hs⟩ := printDoc_head x
    have he : ∃ r1, printElems (x :: xs) = c :: r1 := by
      cases xs with
      | nil => exact ⟨r, by simp [printElems, hc]⟩
      | cons y ys => exact ⟨_, by simp [printElems, hc]; rfl⟩
    obtain ⟨r1, hr1⟩ := he
    have ih := parseElems_print x xs rest f (by simp [printDoc] at hf; omega)
    simp only [printDoc, Doc.json, List.cons_append, List.append_assoc]
    rw [hr1] at ih ⊢
    rw [List.cons_append, parseValue_open f c _ hs (startsValue_facts c hs).2.1]
    rw [List.cons_append] at ih
    rw [List.nil_append, ih]
    rfl
  | .obj [], rest, _, fuel, hf => by
    obtain ⟨f, rfl⟩ := fuel_succ _ _ hf
    rfl
  | .obj ((k, v) :: ms), rest, _, fuel, hf => by
    obtain ⟨f, rfl⟩ := fuel_succ _ _ hf
    have ih := parseMembers_print k v ms rest f (by simp [printDoc] at hf; omega)
    have he : ∃ r1, printMembers ((k, v) :: ms) = '"' :: r1 := by
      cases ms with
      | nil => exact ⟨_, by simp [printMembers, printString]; rfl⟩
      | cons y ys => exact ⟨_, by simp [printMembers, printString]; rfl⟩
    obtain ⟨r1, hr1⟩ := he
    simp only [printDoc, Doc.json, List.cons_append, List.append_assoc]
    rw [hr1] at ih ⊢
    rw [List.cons_append, parseValue_brace]
    rw [List.cons_append] at ih
    rw [List.nil_append, ih]
    rfl
termination_by d => sizeOf d
theorem parseElems_print : ∀ (x : Doc) (xs : List Doc)
    (rest : List Char) (fuel : Nat), (printElems (x :: xs)).length + 1 < fuel →
    parseElems fuel (printElems (x :: xs) ++ ']' :: rest) = some (jsonElems (x :: xs), rest)
  | x, [], rest, fuel, hf => by
    obtain ⟨f, rfl⟩ := fuel_succ _ _ hf
    have ih := parseValue_print x (']' :: rest) (by rfl) f
      (by simp [printElems] at hf; omega)
    simp only [printElems, parseElems, ih, jsonElems]
    rfl
  | x, y :: ys, rest, fuel, hf => by
    obtain ⟨f, rfl⟩ := fuel_succ _ _ hf
    have ih1 := parseValue_print x (',' :: (printElems (y :: ys) ++ ']' :: rest)) (by rfl) f
      (by simp [printElems] at hf; omega)
    have ih2 := parseElems_print y ys rest f (by simp [printElems] at hf; omega)
    simp only [printElems, List.append_assoc, List.cons_append, parseElems, ih1]
    have hws : isWs ',' = false := by decide
    simp only [skipWs_cons _ _ hws, if_true, ih2]
    rfl
termination_by x xs => sizeOf x + sizeOf xs
theorem parseMembers_print : ∀ (k : GoString) (v : Doc) (ms : List (GoString × Doc))
    (rest : List Char) (fuel : Nat), (printMembers ((k, v) :: ms)).length + 1 < fuel →
    parseMembers fuel (printMembers ((k, v) :: ms) ++ '}' :: rest)
      = some (jsonMembers ((k, v) :: ms), rest)
  | k, v, [], rest, fuel, hf => by
    obtain ⟨f, rfl⟩ := fuel_succ _ _ hf
    have hq : isWs '"' = false := by decide
    have hcolon : isWs ':' = false := by decide
    have ih := parseValue_print v ('}' :: rest) (by rfl) f
      (by simp [printMembers] at hf; omega)
    obtain ⟨body, hb, hp⟩ := parseString_print k (':' :: (printDoc v ++ '}' :: rest))
    simp only [printMembers, List.append_assoc, List.cons_append]
    rw [hb]
    simp only [parseMembers, skipWs_cons _ _ hq, if_true, hp, skipWs_cons _ _ hcolon, ih,
      jsonMembers]
    rfl
  | k, v, (k2, v2) :: ys, rest, fuel, hf => by
    obtain ⟨f, rfl⟩ := fuel_succ _ _ hf
    have hq : isWs '"' = false := by decide
    have hcolon : isWs ':' = false := by decide
    have ih1 := parseValue_print v
      (',' :: (printMembers ((k2, v2) :: ys) ++ '}' :: rest)) (by rfl) f
      (by simp [printMembers] at hf; omega)
    have ih2 := parseMembers_print k2 v2 ys rest f (by simp [printMembers] at hf; omega)
    obtain ⟨body, hb, hp⟩ := parseString_print k
      (':' :: (printDoc v ++ ',' :: (printMembers ((k2, v2) :: ys) ++ '}' :: rest)))
    simp only [printMembers, List.append_assoc, List.cons_append]
    rw [hb]
    have hws : isWs ',' = false := by decide
    simp only [parseMembers, skipWs_cons _ _ hq, if_true, hp, skipWs_cons _ _ hcolon, ih1,
      skipWs_cons _ _ hws, ih2]
    rfl
termination_by _ v ms => sizeOf v + sizeOf ms
end

/-- Reading back the text of a document: the JSON it denotes. -/
theorem parseJSON_print (d : Doc) : parseJSON (printDoc d) = some d.json := by
  have := parseValue_print d [] rfl ((printDoc d).length + 1) (by omega)
  rw [List.append_nil] at this
  simp [parseJSON, this, skipWs]

/-! ## The JSON codec -/

/-- Setting the keys of a duplicate-free entry list one after the other: a key
of the list ends with its value, any other key keeps what it had. -/
theorem lookup_foldl_set {α β : Type} [DecidableEq α] (es : List (Sigma fun _ : α => β))
    (hn : es.NodupKeys) (acc : AList (fun _ : α => β)) (k : α) :
    (es.foldl (fun out kv => out.insert kv.1 kv.2) acc).lookup k
      = match List.dlookup k es with
        | some v => some v
        | none => acc.lookup k := by
  induction es generalizing acc with
  | nil => simp
  | cons x t ih =>
    obtain ⟨a, b⟩ := x
    rw [List.nodupKeys_cons] at hn
    rw [List.foldl_cons, ih hn.2]
    by_cases hk : k = a
    · subst hk
      have : List.dlookup k t = none := by
        rw [List.dlookup_eq_none]; exact hn.1
      simp [this]
    · rw [List.dlookup_cons_ne _ _ hk]
      cases List.dlookup k t with
      | some v => rfl
      | none => simp [AList.lookup_insert_ne hk]

theorem decodeStrings_encode (v : List GoString) (hv : ∀ s ∈ v, ValidUTF8 s) :
    decodeStrings (v.map fun s => JSON.str (textOf s)) = .ok v := by
  induction v with
  | nil => rfl
  | cons a t ih =>
    have ha : bytesOf (textOf a) = a := hv a (by simp)
    simp [decodeStrings, decodeString, ih (fun s hs => hv s (by simp [hs])), ha]

theorem decodeHeaderMembers_encode (es : List (Sigma fun _ : GoString => List GoString))
    (hes : ∀ kv ∈ es, ValidUTF8 kv.1 ∧ ∀ v ∈ kv.2, ValidUTF8 v) (acc : GoHeader) :
    decodeHeaderMembers
        (es.map fun kv => (textOf kv.1, JSON.arr (kv.2.map fun v => JSON.str (textOf v)))) acc
      = .ok (es.foldl (fun out kv => out.insert kv.1 kv.2) acc) := by
  induction es generalizing acc with
  | nil => rfl
  | cons x t ih =>
    obtain ⟨hk, hv⟩ := hes x (by simp)
    have hk' : bytesOf (textOf x.1) = x.1 := hk
    simp [decodeHeaderMembers, decodeStringSlice, decodeStrings_encode _ hv, hk',
      ih (fun kv h => hes kv (by simp [h]))]

/-- Decoding the JSON object of a header map whose strings are valid UTF-8
into an empty map gives a map with the same keys and values. -/
theorem decodeHeaders_encode (h : GoHeader)
    (hh : ∀ kv ∈ h.entries, ValidUTF8 kv.1 ∧ ∀ v ∈ kv.2, ValidUTF8 v) :
    ∃ h1, decodeHeaders (headersJSON h) ∅ = .ok h1 ∧ ∀ k, h1.lookup k = h.lookup k := by
  have hp : (h.entries.mergeSort keyLe).Perm h.entries := List.mergeSort_perm _ _
  refine ⟨(h.entries.mergeSort keyLe).foldl (fun out kv => out.insert kv.1 kv.2) ∅, ?_, ?_⟩
  · simp only [decodeHeaders, headersJSON]
    exact decodeHeaderMembers_encode _ (fun kv hkv => hh kv (hp.mem_iff.mp hkv)) _
  · intro k
    have hn : (h.entries.mergeSort keyLe).NodupKeys := (List.perm_nodupKeys hp).2 h.nodupKeys
    rw [lookup_foldl_set _ hn ∅ k, List.perm_dlookup k hn h.nodupKeys hp]
    cases hk : List.dlookup k h.entries with
    | some v => simp [AList.lookup, hk]
    | none => simp [AList.lookup, hk]

theorem unmarshalMembers_append (l1 l2 : List (String × JSON)) (e0 e1 : GoEnvelope)
    (h : unmarshalMembers l1 e0 = .ok e1) :
    unmarshalMembers (l1 ++ l2) e0 = unmarshalMembers l2 e1 := by
  induction l1 generalizing e0 with
  | nil =>
    simp only [unmarshalMembers, Except.ok.injEq] at h
    subst h
    rfl
  | cons x t ih =>
    obtain ⟨k, v⟩ := x
    simp only [List.cons_append, unmarshalMembers] at h ⊢
    cases hm : unmarshalMember k v e0 with
    | error err => simp [hm] at h
    | ok e2 =>
      simp only [hm] at h ⊢
      exact ih e2 h

theorem unmarshal_type (e0 : GoEnvelope) (s : GoString) (hs : ValidUTF8 s) :
    unmarshalMembers [("type", .str (textOf s))] e0 = .ok { e0 with Typ := s } := by
  have h : unmarshalMembers [("type", .str (textOf s))] e0
      = .ok { e0 with Typ := bytesOf (textOf s) } := rfl
  rw [h, hs]

theorem unmarshal_app_id (e0 : GoEnvelope) (s : GoString) (h0 : e0.AppID = [])
    (hs : ValidUTF8 s) :
    unmarshalMembers (if s.length = 0 then [] else [("app_id", .str (textOf s))]) e0
      = .ok { e0 with AppID := s } := by
  by_cases hl : s.length = 0
  · have : s = [] := List.length_eq_zero.mp hl
    subst this
    cases e0
    simp_all [unmarshalMembers]
  · simp only [hl, if_false]
    have h : unmarshalMembers [("app_id", .str (textOf s))] e0
        = .ok { e0 with AppID := bytesOf (textOf s) } := rfl
    rw [h, hs]

theorem unmarshal_req_id (e0 : GoEnvelope) (s : GoString) (h0 : e0.ReqID = [])
    (hs : ValidUTF8 s) :
    unmarshalMembers (if s.length = 0 then [] else [("req_id", .str (textOf s))]) e0
      = .ok { e0 with ReqID := s } := by
  by_cases hl : s.length = 0
  · have : s = [] := List.length_eq_zero.mp hl
    subst this
    cases e0
    simp_all [unmarshalMembers]
  · simp only [hl, if_false]
    have h : unmarshalMembers [("req_id", .str (textOf s))] e0
        = .ok { e0 with ReqID := bytesOf (textOf s) } := rfl
    rw [h, hs]

theorem unmarshal_method (e0 : GoEnvelope) (s : GoString) (h0 : e0.Method = [])
    (hs : ValidUTF8 s) :
    unmarshalMembers (if s.length = 0 then [] else [("method", .str (textOf s))]) e0
      = .ok { e0 with Method := s } := by
  by_cases hl : s.length = 0
  · have : s = [] := List.length_eq_zero.mp hl
    subst this
    cases e0
    simp_all [unmarshalMembers]
  · simp only [hl, if_false]
    have h : unmarshalMembers [("method", .str (textOf s))] e0
        = .ok { e0 with Method := bytesOf (textOf s) } := rfl
    rw [h, hs]

theorem unmarshal_path (e0 : GoEnvelope) (s : GoString) (h0 : e0.Path = [])
    (hs : ValidUTF8 s) :
    unmarshalMembers (if s.length = 0 then [] else [("path", .str (textOf s))]) e0
      = .ok { e0 with Path := s } := by
  by_cases hl : s.length = 0
  · have : s = [] := List.length_eq_zero.mp hl
    subst this
    cases e0
    simp_all [unmarshalMembers]
  · simp only [hl, if_false]
    have h : unmarshalMembers [("path", .str (textOf s))] e0
        = .ok { e0 with Path := bytesOf (textOf s) } := rfl
    rw [h, hs]

theorem unmarshal_status (e0 : GoEnvelope) (n : Int) (h0 : e0.Status = 0)
    (hn : -(2 : Int) ^ 63 ≤ n ∧ n < (2 : Int) ^ 63) :
    unmarshalMembers (if n = 0 then [] else [("status", .num n)]) e0
      = .ok { e0 with Status := n } := by
  by_cases hs : n = 0
  · subst hs
    cases e0
    simp_all [unmarshalMembers]
  · simp only [hs, if_false]
    have : unmarshalMember "status" (.num n) e0 = .ok { e0 with Status := n } := by
      have hm : matchField "status" = some "status" := rfl
      simp only [unmarshalMember, hm, decodeInt, hn, and_self, if_true]
      rfl
    simp [unmarshalMembers, this]

theorem unmarshal_body (e0 : GoEnvelope) (b : List Nat) (h0 : e0.Body = [])
    (hb : ∀ x ∈ b, x < 256) :
    unmarshalMembers (if b.length = 0 then [] else [("body", .str ⟨base64Encode b⟩)]) e0
      = .ok { e0 with Body := b } := by
  by_cases hs : b.length = 0
  · have : b = [] := List.length_eq_zero.mp hs
    subst this
    cases e0
    simp_all [unmarshalMembers]
  · simp only [hs, if_false]
    have : unmarshalMember "body" (.str ⟨base64Encode b⟩) e0 = .ok { e0 with Body := b } := by
      have hm : matchField "body" = some "body" := rfl
      simp only [unmarshalMember, hm, decodeBytes, base64Decode_encode b hb]
      rfl
    simp [unmarshalMembers, this]

theorem unmarshal_headers (e0 : GoEnvelope) (h : GoHeader) (h0 : e0.Headers = ∅)
    (hh : ∀ kv ∈ h.entries, ValidUTF8 kv.1 ∧ ∀ v ∈ kv.2, ValidUTF8 v) :
    ∃ h1, unmarshalMembers
        (if h.entries.length = 0 then [] else [("headers", headersJSON h)]) e0
      = .ok { e0 with Headers := h1 } ∧ ∀ k, h1.lookup k = h.lookup k := by
  by_cases hs : h.entries.length = 0
  · refine ⟨∅, ?_, ?_⟩
    · cases e0
      simp_all [unmarshalMembers]
    · intro k
      have : h.entries = [] := List.length_eq_zero.mp hs
      simp [AList.lookup, this]
  · obtain ⟨h1, hd, hsame⟩ := decodeHeaders_encode h hh
    refine ⟨h1, ?_, hsame⟩
    simp only [hs, if_false]
    have : unmarshalMember "headers" (headersJSON h) e0 = .ok { e0 with Headers := h1 } := by
      have hm : matchField "headers" = some "headers" := rfl
      simp only [unmarshalMember, hm, h0, hd]
      rfl
    simp [unmarshalMembers, this]

theorem jsonElems_map_str (v : List GoString) :
    jsonElems (v.map Doc.str) = v.map fun s => JSON.str (textOf s) := by
  induction v with
  | nil => rfl
  | cons a t ih => simp [jsonElems, Doc.json, ih]

theorem jsonMembers_append (l1 l2 : List (GoString × Doc)) :
    jsonMembers (l1 ++ l2) = jsonMembers l1 ++ jsonMembers l2 := by
  induction l1 with
  | nil => rfl
  | cons x t ih =>
    obtain ⟨k, v⟩ := x
    simp [jsonMembers, ih]

theorem jsonMembers_ite (c : Prop) [Decidable c] (k : GoString) (v : Doc) :
    jsonMembers (if c then [] else [(k, v)]) = if c then [] else [(textOf k, v.json)] := by
  split <;> rfl

theorem encodeHeaders_json (h : GoHeader) : (encodeHeaders h).json = headersJSON h := by
  simp only [encodeHeaders, headersJSON, Doc.json]
  congr 1
  induction h.entries.mergeSort keyLe with
  | nil => rfl
  | cons x t ih => simp [jsonMembers, Doc.json, jsonElems_map_str, ih]

/-- The text of an envelope is read back as the members of `membersJSON`. -/
theorem jsonMembers_marshalMembers (e : GoEnvelope) :
    jsonMembers (marshalMembers e) = membersJSON e := by
  have h1 : ∀ (k : String) (v : Doc),
      jsonMembers [(bytesOf k, v)] = [(k, v.json)] := by
    intro k v
    simp only [jsonMembers, textOf_bytesOf]
  have h2 : ∀ s : GoString, (Doc.str s).json = JSON.str (textOf s) := fun s => by
    simp only [Doc.json]
  have h3 : ∀ n : Int, (Doc.num n).json = JSON.num n := fun n => by
    simp only [Doc.json]
  simp only [marshalMembers, membersJSON, jsonMembers_append, jsonMembers_ite, h1,
    encodeHeaders_json, h2, h3, textOf_bytesOf]

/-- What `Unmarshal` makes of the bytes that `Marshal` wrote: the decoding of
the members that the text is read back as. -/
theorem Unmarshal_Marshal (e e0 : GoEnvelope) :
    ∃ b, Envelope.Marshal e = .ok b ∧
      Envelope.Unmarshal b e0 = unmarshalMembers (membersJSON e) e0 := by
  refine ⟨utf8Encode (printDoc (.obj (marshalMembers e))), rfl, ?_⟩
  simp only [Envelope.Unmarshal, utf8Decode_encode, parseJSON_print, Doc.json, unmarshalValue,
    jsonMembers_marshalMembers]

/-- Decoding the document of an envelope whose strings are valid UTF-8 into a
fresh envelope gives the envelope back, the headers as a map. -/
theorem unmarshalMembers_membersJSON (e : GoEnvelope) (hv : e.Valid) (hu : e.ValidUTF8) :
    ∃ e1, unmarshalMembers (membersJSON e) {} = .ok e1 ∧ GoEnvelope.Same e1 e := by
  obtain ⟨hstatus, hbody⟩ := hv
  obtain ⟨u1, u2, u3, u4, u5, u6⟩ := hu
  obtain ⟨h1, hh, hsame⟩ := unmarshal_headers
    { Typ := e.Typ, AppID := e.AppID, ReqID := e.ReqID, Method := e.Method, Path := e.Path }
    e.Headers rfl u6
  refine ⟨{ Typ := e.Typ, AppID := e.AppID, ReqID := e.ReqID, Method := e.Method,
            Path := e.Path, Headers := h1, Status := e.Status, Body := e.Body }, ?_,
    rfl, rfl, rfl, rfl, rfl, hsame, rfl, rfl⟩
  have s1 := unmarshal_type {} e.Typ u1
  have s2 := unmarshal_app_id { Typ := e.Typ } e.AppID rfl u2
  have s3 := unmarshal_req_id { Typ := e.Typ, AppID := e.AppID } e.ReqID rfl u3
  have s4 := unmarshal_method { Typ := e.Typ, AppID := e.AppID, ReqID := e.ReqID }
    e.Method rfl u4
  have s5 := unmarshal_path
    { Typ := e.Typ, AppID := e.AppID, ReqID := e.ReqID, Method := e.Method } e.Path rfl u5
  have s7 := unmarshal_status
    { Typ := e.Typ, AppID := e.AppID, ReqID := e.ReqID, Method := e.Method, Path := e.Path,
      Headers := h1 } e.Status rfl hstatus
  have s8 := unmarshal_body
    { Typ := e.Typ, AppID := e.AppID, ReqID := e.ReqID, Method := e.Method, Path := e.Path,
      Headers := h1, Status := e.Status } e.Body rfl hbody
  simp only [membersJSON]
  rw [unmarshalMembers_append _ _ _ _
    (by rw [unmarshalMembers_append _ _ _ _
      (by rw [unmarshalMembers_append _ _ _ _
        (by rw [unmarshalMembers_append _ _ _ _
          (by rw [unmarshalMembers_append _ _ _ _
            (by rw [unmarshalMembers_append _ _ _ _ (by rw [unmarshalMembers_append _ _ _ _ s1]; exact s2)];
                exact s3)];
              exact s4)];
            exact s5)];
          exact hh)];
        exact s7)]
  exact s8

/-- Sorting two entries whose keys are out of order swaps them. -/
theorem mergeSort_swap (a b : Sigma fun _ : GoString => List GoString)
    (h : keyLe a b = false) : [a, b].mergeSort keyLe = [b, a] := by
  simp [List.mergeSort, List.splitInTwo, List.merge, h]

theorem printInt_201 : printInt 201 = ['2', '0', '1'] := by
  simp [printInt, printNat]

/-- The bytes `Marshal` writes for `invalidAppID`: those of
`{"type":"request","app_id":"\ufffd"}`, the byte `0xFF` written as an
escape. -/
theorem Marshal_invalidAppID :
    Envelope.Marshal invalidAppID = .ok
      [123, 34, 116, 121, 112, 101, 34, 58, 34, 114, 101, 113, 117, 101, 115, 116, 34, 44, 34, 97,
       112, 112, 95, 105, 100, 34, 58, 34, 92, 117, 102, 102, 102, 100, 34, 125] := by
  rfl

/-- What `Unmarshal` reads from these bytes into a fresh envelope: the
`app_id` is the encoding of `U+FFFD`. -/
theorem Unmarshal_invalidAppID :
    Envelope.Unmarshal
      [123, 34, 116, 121, 112, 101, 34, 58, 34, 114, 101, 113, 117, 101, 115, 116, 34, 44, 34, 97,
       112, 112, 95, 105, 100, 34, 58, 34, 92, 117, 102, 102, 102, 100, 34, 125] {}
      = .ok { Typ := bytesOf "request", AppID := [239, 191, 189] } := by
  rfl

set_option maxRecDepth 100000 in
/-- The bytes `Marshal` writes for `goResponse`: those of
`{"type":"response","req_id":"1","headers":{"Content-Type":["text/plain"],"X-Foo":["a","café"]},"status":201,"body":"aGVsbG8="}`,
the fields in declaration order, the empty ones left out, the header names
sorted, the body in base64. -/
theorem Marshal_goResponse :
    Envelope.Marshal goResponse = .ok
      [123, 34, 116, 121, 112, 101, 34, 58, 34, 114, 101, 115, 112, 111, 110, 115, 101, 34, 44,
       34, 114, 101, 113, 95, 105, 100, 34, 58, 34, 49, 34, 44, 34, 104, 101, 97, 100, 101, 114,
       115, 34, 58, 123, 34, 67, 111, 110, 116, 101, 110, 116, 45, 84, 121, 112, 101, 34, 58, 91,
       34, 116, 101, 120, 116, 47, 112, 108, 97, 105, 110, 34, 93, 44, 34, 88, 45, 70, 111, 111,
       34, 58, 91, 34, 97, 34, 44, 34, 99, 97, 102, 195, 169, 34, 93, 125, 44, 34, 115, 116, 97,
       116, 117, 115, 34, 58, 50, 48, 49, 44, 34, 98, 111, 100, 121, 34, 58, 34, 97, 71, 86, 115,
       98, 71, 56, 61, 34, 125] := by
  have he : goResponse.Headers.entries
      = [⟨bytesOf "X-Foo", [bytesOf "a", bytesOf "café"]⟩,
         ⟨bytesOf "Content-Type", [bytesOf "text/plain"]⟩] := rfl
  have hh : encodeHeaders goResponse.Headers
      = .obj [(bytesOf "Content-Type", .arr [.str (bytesOf "text/plain")]),
              (bytesOf "X-Foo", .arr [.str (bytesOf "a"), .str (bytesOf "café")])] := by
    rw [encodeHeaders, he, mergeSort_swap _ _ (by decide)]
    rfl
  have h : marshalMembers goResponse
      = [(bytesOf "type", .str (bytesOf "response")), (bytesOf "req_id", .str (bytesOf "1")),
         (bytesOf "headers", encodeHeaders goResponse.Headers), (bytesOf "status", .num 201),
         (bytesOf "body", .str (bytesOf "aGVsbG8="))] := rfl
  rw [Envelope.Marshal, h, hh]
  simp only [printDoc, printMembers, printElems, printInt_201]
  rfl

set_option maxRecDepth 100000 in
/-- What `Unmarshal` reads from these bytes into a fresh envelope. -/
theorem Unmarshal_goResponse :
    Envelope.Unmarshal
      [123, 34, 116, 121, 112, 101, 34, 58, 34, 114, 101, 115, 112, 111, 110, 115, 101, 34, 44,
       34, 114, 101, 113, 95, 105, 100, 34, 58, 34, 49, 34, 44, 34, 104, 101, 97, 100, 101, 114,
       115, 34, 58, 123, 34, 67, 111, 110, 116, 101, 110, 116, 45, 84, 121, 112, 101, 34, 58, 91,
       34, 116, 101, 120, 116, 47, 112, 108, 97, 105, 110, 34, 93, 44, 34, 88, 45, 70, 111, 111,
       34, 58, 91, 34, 97, 34, 44, 34, 99, 97, 102, 195, 169, 34, 93, 125, 44, 34, 115, 116, 97,
       116, 117, 115, 34, 58, 50, 48, 49, 44, 34, 98, 111, 100, 121, 34, 58, 34, 97, 71, 86, 115,
       98, 71, 56, 61, 34, 125] {}
      = .ok goResponse := by
  rfl

/-- C5, as stated, fails: the envelope of type `request` whose `app_id` is the
single byte `0xFF` is a value the struct can hold; `Marshal` succeeds and
writes that byte as the escape `\ufffd`, so `Unmarshal` of the bytes into a
fresh envelope yields the `app_id` `EF BF BD`, the encoding of `U+FFFD`, not
the original. -/
theorem roundtrip_invalid_utf8_counterexample :
    invalidAppID.Valid ∧
    ¬ ∃ b, Envelope.Marshal invalidAppID = .ok b ∧
      ∃ e1, Envelope.Unmarshal b {} = .ok e1 ∧ GoEnvelope.Same e1 invalidAppID := by
  refine ⟨by decide, ?_⟩
  rintro ⟨b, hb, e1, h1, hs⟩
  obtain ⟨b0, hb0, hu⟩ := Unmarshal_Marshal invalidAppID {}
  rw [hb0] at hb
  simp only [Except.ok.injEq] at hb
  subst hb
  have hm : unmarshalMembers (membersJSON invalidAppID) {}
      = .ok { Typ := bytesOf "request", AppID := [239, 191, 189] } := rfl
  rw [hu, hm] at h1
  simp only [Except.ok.injEq] at h1
  subst h1
  have := hs.2.1
  revert this
  decide

/-- C5, amended: for every envelope whose strings (the five string fields,
the header names and the header values) are valid UTF-8, `Marshal` succeeds,
and `Unmarshal` of the bytes it produced into a fresh envelope succeeds and
yields an envelope equal to the original in every field (the headers as
maps); this covers multi-valued headers, an empty headers map, status 0 and
an empty body, which `omitempty` leaves out of the document. -/
theorem marshal_unmarshal_roundtrip (e : GoEnvelope) (hv : e.Valid) (hu : e.ValidUTF8) :
    ∃ b, Envelope.Marshal e = .ok b ∧
      ∃ e1, Envelope.Unmarshal b {} = .ok e1 ∧ GoEnvelope.Same e1 e := by
  obtain ⟨e1, h1, hsame⟩ := unmarshalMembers_membersJSON e hv hu
  obtain ⟨b, hb, hub⟩ := Unmarshal_Marshal e {}
  exact ⟨b, hb, e1, by rw [hub, h1], hsame⟩

theorem marshal_unmarshal_roundtrip_witness :
    (goResponse.Valid ∧ goResponse.ValidUTF8) ∧
    ∃ b, Envelope.Marshal goResponse = .ok b ∧
      ∃ e1, Envelope.Unmarshal b {} = .ok e1 ∧ GoEnvelope.Same e1 goResponse :=
  ⟨⟨by decide, by decide⟩, marshal_unmarshal_roundtrip goResponse (by decide) (by decide)⟩

/-! ## Examples of the session properties -/

theorem loop_fifo_witness :
    responseIDs (loop exampleLib exampleBase
        [requestArrives "1", pingArrives, requestArrives "2", responseArrives,
         requestArrives "3"]).1 = ["1", "2", "3"] ∧
      (loop exampleLib exampleBase
        [requestArrives "1", pingArrives, requestArrives "2", responseArrives,
         requestArrives "3"]).2 = .reading :=
  loop_fifo exampleLib exampleBase _ (by
    intro it hit
    simp only [List.mem_cons, List.mem_singleton, List.not_mem_nil, or_false] at hit
    rcases hit with rfl | rfl | rfl | rfl | rfl
    · exact ⟨rfl, _, rfl, fun _ => ⟨_, _, rfl⟩⟩
    · exact ⟨rfl, _, rfl, fun h => absurd h (by decide)⟩
    · exact ⟨rfl, _, rfl, fun _ => ⟨_, _, rfl⟩⟩
    · exact ⟨rfl, _, rfl, fun h => absurd h (by decide)⟩
    · exact ⟨rfl, _, rfl, fun _ => ⟨_, _, rfl⟩⟩)

theorem loop_response_write_failure_witness :
    (loop exampleLib exampleBase [responseWriteFails, pingArrives]).2
      = .returned "write: broken pipe" :=
  congrArg Prod.snd
    (loop_response_write_failure exampleLib exampleBase responseWriteFails [pingArrives]
      exampleRequest _ _ "write: broken pipe" rfl rfl rfl rfl)

end LocalAgent
